import Mathlib

/-!
Verification of the scantree library (recursive, symlink-aware directory tree
traversal) against its specification.

The development shallowly embeds the Python sources:
  * `src/scantree/_path.py`  — path identity (`RecursionPath`, `DirEntryReplacement`)
  * `src/scantree/_node.py`  — tree node model (`DirNode`, `LinkedDir`, `CyclicLinkedDir`)
  * `src/scantree/_scan.py`  — traversal engine (`scantree`, `_scantree_recursive`,
    `_verify_is_directory`, `_cached_by_realpath`, `_scantree_multiprocess`)

The filesystem is modelled as an oracle (`FS`) giving the results of the OS
calls the code performs (`os.path.exists`, `os.path.isdir`, `os.path.realpath`,
`scandir`, ...).  Recursion in the engine is made total with a fuel parameter;
running out of fuel is a distinguished outcome (`fuelOut`), never identified
with any behaviour of the program.  Stateful Python callbacks (closures that
append to lists, caches) are modelled by explicit state passing.
-/

namespace Scantree

/-! ## OS path strings

Python compares strings by code points; we use `List Char` comparisons (which
the kernel can evaluate) and convert to `String` order facts where needed. -/

/-- Model of `os.path.join(a, b)` for the shapes occurring in this code base:
`a` is `""` or a path without trailing slash, `b` is `""` or a relative name.
Python returns `b` if `a` is empty, and appends a trailing separator when `b`
is empty. -/
def osPathJoin (a b : String) : String :=
  if a = "" then b else if b = "" then a ++ "/" else a ++ "/" ++ b

/-- Model of `os.path.basename`: the part of the path after the last slash. -/
def osPathBasename (s : String) : String :=
  String.mk ((s.data.reverse.takeWhile (fun c => c ≠ '/')).reverse)

/-! ## Python dict

`parents` and the `file_apply` cache are Python dicts keyed by strings.  A dict
holds at most one value per key; we model it as an association list where
`dictSet` overwrites in place and `dictDel` removes the key. -/

/-- Lookup (`d.get(k, None)` / `d[k]`). -/
def dictGet {ρ : Type} : List (String × ρ) → String → Option ρ
  | [], _ => none
  | (k', v') :: rest, k => if k' = k then some v' else dictGet rest k

/-- Update (`d[k] = v`): overwrite the binding in place, else append. -/
def dictSet {ρ : Type} : List (String × ρ) → String → ρ → List (String × ρ)
  | [], k, v => [(k, v)]
  | (k', v') :: rest, k, v =>
    if k' = k then (k, v) :: rest else (k', v') :: dictSet rest k v

/-- Deletion (`del d[k]`): remove the binding for `k` (all of them — a dict
holds at most one).  Python raises `KeyError` when `k` is absent; the traversal
engine below checks presence and produces a `keyError` outcome in that case. -/
def dictDel {ρ : Type} (m : List (String × ρ)) (k : String) : List (String × ρ) :=
  m.filter (fun kv => kv.1 ≠ k)

/-- Membership (`k in d`). -/
def dictHas {ρ : Type} (m : List (String × ρ)) (k : String) : Bool :=
  (dictGet m k).isSome

/-! ## Directory entries (`_path.py`)

`DirEntryReplacement` is the pure-python implementation of the os-portable
`DirEntry` interface; live `DirEntry` objects expose the same interface, so a
single structure models both.  The Python class computes each property lazily
from one OS call and caches it; we model the already-cached values. -/

/-- Model of an `os.stat_result`: the inode plus an abstract identity for the
remaining fields. -/
structure StatResult where
  st_ino : Nat
  st_rest : Nat
deriving DecidableEq, Repr

/-- Cached directory-entry metadata, implementing the `DirEntry` interface
(`DirEntryReplacement` in `_path.py`). -/
structure DirEntryReplacement where
  path : String
  name : String
  is_dir_cached : Bool
  is_file_cached : Bool
  is_symlink_cached : Bool
  stat_sym : StatResult
  stat_nosym : StatResult
deriving DecidableEq, Repr

/-- `DirEntryReplacement.is_dir(follow_symlinks=...)`. -/
def DirEntryReplacement.is_dir (e : DirEntryReplacement) (follow_symlinks : Bool) : Bool :=
  if follow_symlinks then e.is_dir_cached else e.is_dir_cached && !e.is_symlink_cached

/-- `DirEntryReplacement.is_file(follow_symlinks=...)`. -/
def DirEntryReplacement.is_file (e : DirEntryReplacement) (follow_symlinks : Bool) : Bool :=
  if follow_symlinks then e.is_file_cached else e.is_file_cached && !e.is_symlink_cached

/-- `DirEntryReplacement.is_symlink()`. -/
def DirEntryReplacement.is_symlink (e : DirEntryReplacement) : Bool :=
  e.is_symlink_cached

/-- `DirEntryReplacement.stat(follow_symlinks=...)`. -/
def DirEntryReplacement.stat (e : DirEntryReplacement) (follow_symlinks : Bool) : StatResult :=
  if follow_symlinks then e.stat_sym else e.stat_nosym

/-- `DirEntryReplacement.inode()` = `stat(follow_symlinks=False).st_ino`. -/
def DirEntryReplacement.inode (e : DirEntryReplacement) : Nat :=
  (e.stat false).st_ino

/-- `DirEntryReplacement.__eq__` (posix branch): compares `path`, `name`, then
the results of `is_dir`/`is_file` with and without following symlinks,
`is_symlink`, both `stat`s and `inode`. -/
def DirEntryReplacement.eq (a b : DirEntryReplacement) : Bool :=
  a.path == b.path && a.name == b.name &&
  a.is_dir true == b.is_dir true && a.is_dir false == b.is_dir false &&
  a.is_file true == b.is_file true && a.is_file false == b.is_file false &&
  a.is_symlink == b.is_symlink &&
  a.stat true == b.stat true && a.stat false == b.stat false &&
  a.inode == b.inode

/-! ## The filesystem oracle

The results of every OS call the code can make.  `entries` is keyed by the
real (canonical) path of a directory: the code calls `scandir(path.absolute)`
and the OS resolves that name through its symlinks, which is exactly the
`real` path that `RecursionPath` maintains as the canonical resolution of
`absolute`. -/
structure FS where
  os_exists : String → Bool
  os_isdir : String → Bool
  os_isfile : String → Bool
  os_islink : String → Bool
  realpath : String → String
  entries : String → List DirEntryReplacement
  stat_sym_of : String → StatResult
  stat_nosym_of : String → StatResult

/-! ## RecursionPath (`_path.py`) -/

/-- `RecursionPath`: root of the scan, path relative to that root, canonical
real path, and the cached directory entry.  The attrs declaration equips the
Python class with equality and ordering over `(root, relative, real)` only
(`_dir_entry` has `eq=False, order=False`). -/
structure RecursionPath where
  root : String
  relative : String
  real : String
  dir_entry : DirEntryReplacement
deriving DecidableEq, Repr

/-- The attrs-generated `RecursionPath.__eq__`: field equality over
`root`, `relative` and `real`; `_dir_entry` is excluded. -/
def RecursionPath.eqPy (p q : RecursionPath) : Prop :=
  p.root = q.root ∧ p.relative = q.relative ∧ p.real = q.real

instance : DecidablePred fun pq : RecursionPath × RecursionPath => pq.1.eqPy pq.2 :=
  fun _ => by unfold RecursionPath.eqPy; infer_instance

instance (p q : RecursionPath) : Decidable (p.eqPy q) := by
  unfold RecursionPath.eqPy; infer_instance

/-- `RecursionPath.is_dir(follow_symlinks=True)` delegates to the entry. -/
def RecursionPath.is_dir (p : RecursionPath) (follow_symlinks : Bool) : Bool :=
  p.dir_entry.is_dir follow_symlinks

/-- `RecursionPath.is_file(follow_symlinks=True)` delegates to the entry. -/
def RecursionPath.is_file (p : RecursionPath) (follow_symlinks : Bool) : Bool :=
  p.dir_entry.is_file follow_symlinks

/-- `RecursionPath.is_symlink()` delegates to the entry. -/
def RecursionPath.is_symlink (p : RecursionPath) : Bool :=
  p.dir_entry.is_symlink

/-- `DirEntryReplacement.from_path`: requires the path to exist; the entry name
is the basename, or the basename of the real path when that is empty, `.` or
`..`.  The cached metadata comes from the corresponding OS calls. -/
def DirEntryReplacement.from_path (fs : FS) (path : String) : Option DirEntryReplacement :=
  if fs.os_exists path = false then none
  else
    let basename := osPathBasename path
    let name :=
      if basename = "" ∨ basename = "." ∨ basename = ".." then
        osPathBasename (fs.realpath path)
      else basename
    some {
      path := path
      name := name
      is_dir_cached := fs.os_isdir path
      is_file_cached := fs.os_isfile path
      is_symlink_cached := fs.os_islink path
      stat_sym := fs.stat_sym_of path
      stat_nosym := fs.stat_nosym_of path }

/-- `RecursionPath.from_root(directory)` for a string directory: `root` is the
entry's path, `relative` is empty, `real` is the canonical resolution. -/
def RecursionPath.from_root (fs : FS) (directory : String) : Option RecursionPath :=
  match DirEntryReplacement.from_path fs directory with
  | none => none
  | some dir_entry =>
    some {
      root := dir_entry.path
      relative := ""
      real := fs.realpath dir_entry.path
      dir_entry := dir_entry }

/-- `RecursionPath._join(dir_entry)`: extend `relative` and `real` by the entry
name; when the entry is itself a symlink re-resolve `real` via full
canonicalization. -/
def RecursionPath.join (fs : FS) (p : RecursionPath) (dir_entry : DirEntryReplacement) :
    RecursionPath :=
  let relative := osPathJoin p.relative dir_entry.name
  let real0 := osPathJoin p.real dir_entry.name
  let real := if dir_entry.is_symlink then fs.realpath real0 else real0
  { p with relative := relative, real := real, dir_entry := dir_entry }

/-- `RecursionPath.scandir()`: list the directory at this path and join each
entry. -/
def RecursionPath.scandirFS (fs : FS) (p : RecursionPath) : List RecursionPath :=
  (fs.entries p.real).map (p.join fs)

/-! ## Ordering of recursion paths

attrs generates `__lt__` comparing the tuple `(root, relative, real)`
lexicographically (again `_dir_entry` is excluded); Python's `sorted` is a
stable sort for that order, as is insertion sort. -/

/-- Sort key of a `RecursionPath`: the tuple `(root, relative, real)` under the
lexicographic order, with strings compared by code points. -/
def rpKey (p : RecursionPath) : Lex (List Char × Lex (List Char × List Char)) :=
  toLex (p.root.data, toLex (p.relative.data, p.real.data))

/-- The attrs-generated `<=` on `RecursionPath`. -/
def rpLE (p q : RecursionPath) : Prop := rpKey p ≤ rpKey q

instance : DecidableRel rpLE :=
  fun p q => inferInstanceAs (Decidable (rpKey p ≤ rpKey q))

instance : IsTotal RecursionPath rpLE := ⟨fun p q => le_total (rpKey p) (rpKey q)⟩

instance : IsTrans RecursionPath rpLE := ⟨fun _ _ _ h h' => le_trans h h'⟩

/-- Model of Python's `sorted` on recursion paths. -/
def sortedPy (l : List RecursionPath) : List RecursionPath :=
  List.insertionSort rpLE l

/-- Comparison of recursion paths by `relative` only: the key used by
`sorted(..., key=lambda path: path.relative)` in `leafpaths`/`filepaths`. -/
def relLE (p q : RecursionPath) : Prop := p.relative.data ≤ q.relative.data

instance : DecidableRel relLE :=
  fun p q => inferInstanceAs (Decidable (p.relative.data ≤ q.relative.data))

instance : IsTotal RecursionPath relLE := ⟨fun p q => le_total p.relative.data q.relative.data⟩

instance : IsTrans RecursionPath relLE := ⟨fun _ _ _ h h' => le_trans h h'⟩

/-- Model of `sorted(paths, key=lambda path: path.relative)`. -/
def sortedByRelative (l : List RecursionPath) : List RecursionPath :=
  List.insertionSort relLE l

/-! ## Errors

The Python exceptions the code can raise, as structured values.  The code
raises `ValueError` for an invalid root; `NotADirectoryError` is the name the
specification uses for that failure and is included so that the corresponding
claim can be stated — this code never produces it. -/

inductive ScanError where
  | valueError (msg : String)
  | notADirectoryError (msg : String)
  | symlinkRecursionError (real_path first_path second_path : String)
  | keyError (key : String)
  | osError (msg : String)
deriving DecidableEq, Repr

/-- Whether an error is the `NotADirectoryError` named by the specification. -/
def ScanError.isNotADirectoryError : ScanError → Bool
  | .notADirectoryError _ => true
  | _ => false

/-- Whether an error is a `SymlinkRecursionError`. -/
def ScanError.isSymlinkRecursionError : ScanError → Bool
  | .symlinkRecursionError _ _ _ => true
  | _ => false

/-- `SymlinkRecursionError(path, target_path)`: its `__init__` stores
`real_path = path.real`,
`first_path = os.path.join(target_path.root, target_path.relative)` and
`second_path = os.path.join(path.root, path.relative)`. -/
def SymlinkRecursionError (path target_path : RecursionPath) : ScanError :=
  .symlinkRecursionError path.real
    (osPathJoin target_path.root target_path.relative)
    (osPathJoin path.root path.relative)

/-! ## Tree nodes (`_node.py`) -/

/-- One level of the tree produced by the traversal: a fully expanded
directory (`DirNode`, holding `file_apply` results and `dir_apply` results), a
not-followed link (`LinkedDir`), or a cycle-closing link (`CyclicLinkedDir`).
`α` is the type of `file_apply` results and `β` of `dir_apply` results. -/
inductive ScanNode (α β : Type) where
  | dirNode (path : RecursionPath) (files : List α) (directories : List β)
  | linkedDir (path : RecursionPath)
  | cyclicLinkedDir (path target_path : RecursionPath)
deriving DecidableEq, Repr

/-- `is_empty_dir_node`: a `DirNode` whose `files` and `directories` are both
empty (`DirNode.empty`); link sentinels are never empty. -/
def is_empty_dir_node {α β : Type} : ScanNode α β → Bool
  | .dirNode _ files directories => files.isEmpty && directories.isEmpty
  | _ => false

/-- The materialized tree: the value `scantree` returns under the default
(identity) `dir_apply`, where each directory's `directories` list holds the
child trees themselves. -/
inductive Tree (α : Type) where
  | dirNode (path : RecursionPath) (files : List α) (directories : List (Tree α))
  | linkedDir (path : RecursionPath)
  | cyclicLinkedDir (path target_path : RecursionPath)

/-- The identity `dir_apply` of the materialized traversal, read at type
`ScanNode α (Tree α) → Tree α`: it returns the node it is given. -/
def Tree.ofNode {α : Type} : ScanNode α (Tree α) → Tree α
  | .dirNode path files directories => .dirNode path files directories
  | .linkedDir path => .linkedDir path
  | .cyclicLinkedDir path target_path => .cyclicLinkedDir path target_path

/-- The `path` attribute, defined on all three node variants. -/
def Tree.path {α : Type} : Tree α → RecursionPath
  | .dirNode path _ _ => path
  | .linkedDir path => path
  | .cyclicLinkedDir path _ => path

/-- `is_empty_dir_node` on a materialized tree. -/
def Tree.isEmptyDirNode {α : Type} : Tree α → Bool
  | .dirNode _ files directories => files.isEmpty && directories.isEmpty
  | _ => false

/-! ## `apply` (`_node.py`)

`DirNode.apply(dir_apply, file_apply)` rebuilds the node bottom-up and hands
it to `dir_apply`; `LinkedDir.apply` and `CyclicLinkedDir.apply` return
`dir_apply(self)`.  Two faithful details matter below:

  * the subdirectory list comprehension is evaluated before the file list
    comprehension (argument evaluation order), which fixes the order in which
    stateful callbacks run;
  * the rebuilt node is constructed with positional arguments
    `DirNode(self.path, [dir results], [file results])`, and the field order
    of the attrs class is `(path, files, directories)` — so the directory
    results land in the `files` field and the file results in `directories`.

Python is untyped, so this swap goes unnoticed at construction time; in the
typed embedding the general fold is stated for a common result type `τ` of
`dir_apply` and `file_apply` (which covers `leafpaths`/`filepaths`, where both
callbacks return `None`), and the identity instantiation is given separately
on a dynamic value type. -/

/-- The file comprehension of `apply`. -/
def Tree.applySFiles {α σ τ : Type} (file_apply : σ → α → σ × τ) :
    σ → List α → σ × List τ
  | s, [] => (s, [])
  | s, a :: as_ =>
    let (s1, r) := file_apply s a
    let (s2, rs) := Tree.applySFiles file_apply s1 as_
    (s2, r :: rs)

mutual

/-- Stateful fold of `apply` for callbacks with a common result type `τ` and
state `σ`.  Mirrors the source: subdirectories first, then files, then
`dir_apply` on the node rebuilt with the swapped positional arguments. -/
def Tree.applyS {α σ τ : Type}
    (dir_apply : σ → ScanNode τ τ → σ × τ) (file_apply : σ → α → σ × τ) :
    σ → Tree α → σ × τ
  | s, .dirNode path files directories =>
    let (s1, dirResults) := Tree.applySList dir_apply file_apply s directories
    let (s2, fileResults) := Tree.applySFiles file_apply s1 files
    dir_apply s2 (.dirNode path dirResults fileResults)
  | s, .linkedDir path => dir_apply s (.linkedDir path)
  | s, .cyclicLinkedDir path target_path => dir_apply s (.cyclicLinkedDir path target_path)

/-- The subdirectory comprehension of `apply`. -/
def Tree.applySList {α σ τ : Type}
    (dir_apply : σ → ScanNode τ τ → σ × τ) (file_apply : σ → α → σ × τ) :
    σ → List (Tree α) → σ × List τ
  | s, [] => (s, [])
  | s, t :: ts =>
    let (s1, r) := Tree.applyS dir_apply file_apply s t
    let (s2, rs) := Tree.applySList dir_apply file_apply s1 ts
    (s2, r :: rs)

end

mutual

/-- Values of the untyped node fields after a re-fold: either an original
`file_apply`-side value or a rebuilt node. -/
inductive DynVal (α : Type) where
  | base (a : α)
  | node (t : DynTreeNode α)

/-- A rebuilt node whose `files` and `directories` fields hold untyped
values. -/
inductive DynTreeNode (α : Type) where
  | dirNode (path : RecursionPath) (files : List (DynVal α)) (directories : List (DynVal α))
  | linkedDir (path : RecursionPath)
  | cyclicLinkedDir (path target_path : RecursionPath)

end

mutual

/-- The canonical embedding of a well-formed tree into the dynamic node type:
files are base values, subdirectories are nodes. -/
def Tree.toDyn {α : Type} : Tree α → DynTreeNode α
  | .dirNode path files directories =>
    .dirNode path (files.map .base) (Tree.toDynList directories)
  | .linkedDir path => .linkedDir path
  | .cyclicLinkedDir path target_path => .cyclicLinkedDir path target_path

/-- Embedding of a list of subtrees as dynamic node values. -/
def Tree.toDynList {α : Type} : List (Tree α) → List (DynVal α)
  | [] => []
  | t :: ts => .node (Tree.toDyn t) :: Tree.toDynList ts

end

mutual

/-- `apply(dir_apply=identity, file_apply=identity)` as the source computes
it: each rebuilt `DirNode` receives the subdirectory results in its `files`
field and the file values in its `directories` field; the link sentinels are
returned unchanged. -/
def Tree.applyIdentity {α : Type} : Tree α → DynTreeNode α
  | .dirNode path files directories =>
    .dirNode path (Tree.applyIdentityList directories) (files.map .base)
  | .linkedDir path => .linkedDir path
  | .cyclicLinkedDir path target_path => .cyclicLinkedDir path target_path

/-- The subdirectory comprehension of the identity `apply`. -/
def Tree.applyIdentityList {α : Type} : List (Tree α) → List (DynVal α)
  | [] => []
  | t :: ts => .node (Tree.applyIdentity t) :: Tree.applyIdentityList ts

end

/-! ## `leafpaths` and `filepaths` (`_node.py`) -/

/-- The `dir_apply` closure of `leafpaths`: append the node's path when it is
a link sentinel or an empty `DirNode`; the closure returns `None`.  Note the
node it receives is the one rebuilt by `apply` with swapped fields, but
emptiness of the pair of lists and the `path` field are unaffected by the
swap. -/
def leafpathsDirApply (leafs : List RecursionPath) (dn : ScanNode Unit Unit) :
    List RecursionPath × Unit :=
  match dn with
  | .dirNode path files directories =>
    (if files.isEmpty && directories.isEmpty then leafs ++ [path] else leafs, ())
  | .linkedDir path => (leafs ++ [path], ())
  | .cyclicLinkedDir path _ => (leafs ++ [path], ())

/-- `DirNode.leafpaths()`: run `apply` with appending closures, then sort the
collected paths by `relative`. -/
def Tree.leafpaths (t : Tree RecursionPath) : List RecursionPath :=
  let (leafs, _) :=
    Tree.applyS leafpathsDirApply (fun leafs path => (leafs ++ [path], ())) [] t
  sortedByRelative leafs

/-- `DirNode.filepaths()`: run `apply` with a file-appending closure and the
identity `dir_apply`, then sort by `relative`.  The identity `dir_apply`
returns the rebuilt node, which is discarded by the parent reconstruction;
only its (trivial) effect on the collecting state matters here, so its result
is modelled as `()`. -/
def Tree.filepaths (t : Tree RecursionPath) : List RecursionPath :=
  let (files, _) :=
    Tree.applyS (fun files _ => (files, ())) (fun files path => (files ++ [path], ())) [] t
  sortedByRelative files

/-! ## Derived tree predicates

Executable observations on materialized trees, used to state the invariants
claimed of the traversal. -/

/-- The `path` attribute of a one-level node. -/
def ScanNode.pathOf {α β : Type} : ScanNode α β → RecursionPath
  | .dirNode path _ _ => path
  | .linkedDir path => path
  | .cyclicLinkedDir path _ => path

/-- Whether a one-level node is a `DirNode`. -/
def ScanNode.isDirNode {α β : Type} : ScanNode α β → Bool
  | .dirNode _ _ _ => true
  | _ => false

mutual

/-- No strict descendant of this node is an empty `DirNode`. -/
def Tree.noEmptyDirChildren {α : Type} : Tree α → Bool
  | .dirNode _ _ directories => Tree.noEmptyDirChildrenList directories
  | .linkedDir _ => true
  | .cyclicLinkedDir _ _ => true

/-- Each node of the list is not an empty `DirNode` and contains no empty
`DirNode` descendant. -/
def Tree.noEmptyDirChildrenList {α : Type} : List (Tree α) → Bool
  | [] => true
  | t :: ts => !t.isEmptyDirNode && t.noEmptyDirChildren && Tree.noEmptyDirChildrenList ts

end

mutual

/-- The tree contains no `CyclicLinkedDir` node. -/
def Tree.noCyclicLinkedDir {α : Type} : Tree α → Bool
  | .dirNode _ _ directories => Tree.noCyclicLinkedDirList directories
  | .linkedDir _ => true
  | .cyclicLinkedDir _ _ => false

/-- No tree of the list contains a `CyclicLinkedDir` node. -/
def Tree.noCyclicLinkedDirList {α : Type} : List (Tree α) → Bool
  | [] => true
  | t :: ts => t.noCyclicLinkedDir && Tree.noCyclicLinkedDirList ts

end

mutual

/-- In every `DirNode` of the tree the `files` sequence and the paths of the
`directories` sequence are sorted by relative path. -/
def Tree.childrenOrdered : Tree RecursionPath → Bool
  | .dirNode _ files directories =>
    decide (List.Sorted relLE files) &&
    decide (List.Sorted relLE (directories.map Tree.path)) &&
    Tree.childrenOrderedList directories
  | .linkedDir _ => true
  | .cyclicLinkedDir _ _ => true

/-- `Tree.childrenOrdered` for every tree of the list. -/
def Tree.childrenOrderedList : List (Tree RecursionPath) → Bool
  | [] => true
  | t :: ts => t.childrenOrdered && Tree.childrenOrderedList ts

end

/-! ## The traversal engine (`_scan.py`) -/

/-- Outcome of a traversal call: a value, a raised Python exception, or fuel
exhaustion of the embedding (never a program behaviour). -/
inductive ScanOutcome (ν : Type) where
  | ok (value : ν)
  | err (e : ScanError)
  | fuelOut
deriving DecidableEq, Repr

/-- The `parents` dict: real path of each ancestor directory on the current
recursion branch, mapped to its `RecursionPath`. -/
abbrev Parents := List (String × RecursionPath)

/-- `_verify_is_directory`: `ValueError` when the path does not exist or is
not a directory, with messages as in the source. -/
def _verify_is_directory (fs : FS) (directory : String) : Option ScanError :=
  if fs.os_exists directory = false then
    some (.valueError (directory ++ ": No such directory"))
  else if fs.os_isdir directory = false then
    some (.valueError (directory ++ ": Is not a directory"))
  else none

/-- `_cached_by_realpath(file_apply)`: wraps a (stateful) `file_apply` with a
dict keyed by `path.real`; on a hit the cached value is returned and the
underlying function is not invoked. -/
def _cached_by_realpath {σ α : Type} (file_apply : σ → RecursionPath → σ × α) :
    σ × List (String × α) → RecursionPath → (σ × List (String × α)) × α :=
  fun sc path =>
    match dictGet sc.2 path.real with
    | some v => (sc, v)
    | none =>
      let (s1, v) := file_apply sc.1 path
      ((s1, dictSet sc.2 path.real v), v)

/-- The body of the `for subpath in sorted(recursion_filter(path.scandir()))`
loop of `_scantree_recursive`.  `recFn` is the recursive call at the current
fuel; an `err`/`fuelOut` outcome of a recursive call aborts the loop
immediately (the exception propagates), returning the accumulators as they
stood.  For each surviving child: when it is a directory, recurse and append
`dir_apply` of the node unless it is an empty dir node being dropped; when it
is a file, append the `file_apply` result. -/
def scanChildren {σ α β : Type}
    (recFn : RecursionPath → Parents → σ → ScanOutcome (ScanNode α β) × Parents × σ)
    (file_apply : σ → RecursionPath → σ × α) (dir_apply : ScanNode α β → β)
    (include_empty : Bool) :
    List RecursionPath → Parents → σ → List α → List β →
    Option (ScanOutcome (ScanNode α β)) × Parents × σ × List α × List β
  | [], parents, s, files, dirs => (none, parents, s, files, dirs)
  | subpath :: rest, parents, s, files, dirs =>
    if subpath.is_dir true then
      match recFn subpath parents s with
      | (.ok dir_node, parents1, s1) =>
        let dirs1 :=
          if include_empty || !is_empty_dir_node dir_node then dirs ++ [dir_apply dir_node]
          else dirs
        let s2 := if subpath.is_file true then (file_apply s1 subpath).1 else s1
        let files1 :=
          if subpath.is_file true then files ++ [(file_apply s1 subpath).2] else files
        scanChildren recFn file_apply dir_apply include_empty rest parents1 s2 files1 dirs1
      | (out, parents1, s1) => (some out, parents1, s1, files, dirs)
    else
      let s1 := if subpath.is_file true then (file_apply s subpath).1 else s
      let files1 :=
        if subpath.is_file true then files ++ [(file_apply s subpath).2] else files
      scanChildren recFn file_apply dir_apply include_empty rest parents s1 files1 dirs

/-- The children of a directory as the engine enumerates them:
`sorted(recursion_filter(path.scandir()))`. -/
def childrenOf (fs : FS) (recursion_filter : List RecursionPath → List RecursionPath)
    (path : RecursionPath) : List RecursionPath :=
  sortedPy (recursion_filter (path.scandirFS fs))

/-- One level of `_scantree_recursive`, parameterized by the recursive call
`recFn`.  In order of the source: a symlink is returned as a `LinkedDir` when
links are not followed; otherwise a hit for its real path in `parents` yields
a `CyclicLinkedDir` or raises `SymlinkRecursionError`.  Then (when following
links) the path is registered in `parents`, the filtered and sorted children
are processed, the registration is deleted (`del` raises `KeyError` if the key
is absent), and the `DirNode` is returned. -/
def scantreeStep {σ α β : Type} (fs : FS)
    (recursion_filter : List RecursionPath → List RecursionPath)
    (file_apply : σ → RecursionPath → σ × α) (dir_apply : ScanNode α β → β)
    (follow_links allow_cyclic_links include_empty : Bool)
    (recFn : RecursionPath → Parents → σ → ScanOutcome (ScanNode α β) × Parents × σ)
    (path : RecursionPath) (parents : Parents) (s : σ) :
    ScanOutcome (ScanNode α β) × Parents × σ :=
  let early : Option (ScanOutcome (ScanNode α β)) :=
    if path.is_symlink then
      if follow_links = false then some (.ok (.linkedDir path))
      else
        match dictGet parents path.real with
        | some previous_path =>
          some (if allow_cyclic_links then .ok (.cyclicLinkedDir path previous_path)
                else .err (SymlinkRecursionError path previous_path))
        | none => none
    else none
  match early with
  | some out => (out, parents, s)
  | none =>
    let parents1 := if follow_links then dictSet parents path.real path else parents
    match
      scanChildren recFn file_apply dir_apply include_empty
        (childrenOf fs recursion_filter path) parents1 s [] [] with
    | (some out, parents2, s2, _, _) => (out, parents2, s2)
    | (none, parents2, s2, files, dirs) =>
      if follow_links then
        if dictHas parents2 path.real then
          (.ok (.dirNode path files dirs), dictDel parents2 path.real, s2)
        else (.err (.keyError path.real), parents2, s2)
      else (.ok (.dirNode path files dirs), parents2, s2)

/-- `_scantree_recursive`: the recursion, one fuel unit per level. -/
def _scantree_recursive {σ α β : Type} (fs : FS)
    (recursion_filter : List RecursionPath → List RecursionPath)
    (file_apply : σ → RecursionPath → σ × α) (dir_apply : ScanNode α β → β)
    (follow_links allow_cyclic_links include_empty : Bool) :
    Nat → RecursionPath → Parents → σ → ScanOutcome (ScanNode α β) × Parents × σ
  | 0, _, parents, s => (.fuelOut, parents, s)
  | fuel + 1, path, parents, s =>
    scantreeStep fs recursion_filter file_apply dir_apply
      follow_links allow_cyclic_links include_empty
      (_scantree_recursive fs recursion_filter file_apply dir_apply
        follow_links allow_cyclic_links include_empty fuel)
      path parents s

/-- The final step of `scantree`: apply `dir_apply` once to the root node of
a completed recursion, passing errors through. -/
def scantreeFinish {σ α β : Type} (dir_apply : ScanNode α β → β)
    (res : ScanOutcome (ScanNode α β) × Parents × σ) : ScanOutcome β × σ :=
  match res.1 with
  | .ok root_dir_node => (.ok (dir_apply root_dir_node), res.2.2)
  | .err e => (.err e, res.2.2)
  | .fuelOut => (.fuelOut, res.2.2)

/-- The sequential `scantree` (the `jobs=1` path): verify the root, build its
`RecursionPath`, run the recursion with `parents` seeded by the root under its
real path, and apply `dir_apply` once to the root node.  The optional
`_cached_by_realpath` wrapping of `file_apply` (`cache_file_apply=True`) is
modelled by passing the wrapped function, see `_cached_by_realpath`. -/
def scantree {σ α β : Type} (fs : FS)
    (recursion_filter : List RecursionPath → List RecursionPath)
    (file_apply : σ → RecursionPath → σ × α) (dir_apply : ScanNode α β → β)
    (follow_links allow_cyclic_links include_empty : Bool)
    (fuel : Nat) (directory : String) (s : σ) : ScanOutcome β × σ :=
  match _verify_is_directory fs directory with
  | some e => (.err e, s)
  | none =>
    match RecursionPath.from_root fs directory with
    | none => (.err (.osError (directory ++ " does not exist")), s)
    | some path =>
      scantreeFinish dir_apply
        (_scantree_recursive fs recursion_filter file_apply dir_apply
          follow_links allow_cyclic_links include_empty
          fuel path (dictSet [] path.real path) s)

/-- The identity `file_apply` of the default traversal: stateless, returns
the `RecursionPath` itself. -/
def idFileApply : Unit → RecursionPath → Unit × RecursionPath :=
  fun _ path => ((), path)

/-- `scantree` with the default (identity) transforms: the materialized
tree. -/
def scantreeDefault (fs : FS)
    (recursion_filter : List RecursionPath → List RecursionPath)
    (follow_links allow_cyclic_links include_empty : Bool)
    (fuel : Nat) (directory : String) : ScanOutcome (Tree RecursionPath) :=
  (scantree fs recursion_filter idFileApply Tree.ofNode
    follow_links allow_cyclic_links include_empty fuel directory ()).1

/-- The `extract_paths` closure of `_scantree_multiprocess`: record the path,
return its index in the recorded list. -/
def extract_paths : List RecursionPath → RecursionPath → List RecursionPath × Nat :=
  fun file_paths path => (file_paths ++ [path], file_paths.length)

mutual

/-- The final re-fold of `_scantree_multiprocess` for the default (identity)
`dir_apply`: `root_dir_node.apply(dir_apply=identity, file_apply=fetch_result)`
where `fetch_result(i) = file_results[i]`.  As in `Tree.applyIdentity`, the
rebuilt `DirNode`s receive the subdirectory results in `files` and the fetched
file results in `directories` (the source's positional-argument swap).
Indices are in range by construction; `dflt` stands in for the out-of-range
`IndexError` case. -/
def Tree.applyFetch {τ : Type} (file_results : List τ) (dflt : τ) :
    Tree Nat → DynTreeNode τ
  | .dirNode path files directories =>
    .dirNode path (Tree.applyFetchList file_results dflt directories)
      (files.map (fun i => .base (file_results.getD i dflt)))
  | .linkedDir path => .linkedDir path
  | .cyclicLinkedDir path target_path => .cyclicLinkedDir path target_path

/-- The subdirectory comprehension of the `_scantree_multiprocess` re-fold. -/
def Tree.applyFetchList {τ : Type} (file_results : List τ) (dflt : τ) :
    List (Tree Nat) → List (DynVal τ)
  | [] => []
  | t :: ts =>
    .node (Tree.applyFetch file_results dflt t) :: Tree.applyFetchList file_results dflt ts

end

/-- `_scantree_multiprocess` for a pure `file_apply` and the default
`dir_apply` (`cache_file_apply=False`): first a sequential pass with
`file_apply=extract_paths` and `dir_apply=identity` materializes the tree of
indices and records the file paths in call order; then `pool.map(file_apply,
file_paths)` (which preserves input order) computes the results; finally the
tree is re-folded substituting each index. -/
def _scantree_multiprocess {τ : Type} (fs : FS)
    (recursion_filter : List RecursionPath → List RecursionPath)
    (file_apply : RecursionPath → τ) (dflt : τ)
    (follow_links allow_cyclic_links include_empty : Bool)
    (fuel : Nat) (directory : String) : ScanOutcome (DynTreeNode τ) :=
  match scantree fs recursion_filter extract_paths Tree.ofNode
      follow_links allow_cyclic_links include_empty fuel directory [] with
  | (.ok root_dir_node, file_paths) =>
    let file_results := file_paths.map file_apply
    .ok (root_dir_node.applyFetch file_results dflt)
  | (.err e, _) => .err e
  | (.fuelOut, _) => .fuelOut

/-! ## Basic dictionary lemmas -/

theorem dictGet_dictSet_self {ρ : Type} (m : List (String × ρ)) (k : String) (v : ρ) :
    dictGet (dictSet m k v) k = some v := by
  induction m with
  | nil => simp [dictSet, dictGet]
  | cons kv rest ih =>
    by_cases h : kv.1 = k
    · simp [dictSet, h, dictGet]
    · simpa [dictSet, h, dictGet] using ih

theorem dictGet_dictSet_ne {ρ : Type} (m : List (String × ρ)) (k k' : String) (v : ρ)
    (h : k ≠ k') : dictGet (dictSet m k v) k' = dictGet m k' := by
  induction m with
  | nil => simp [dictSet, dictGet, h]
  | cons kv rest ih =>
    by_cases hk : kv.1 = k
    · have hne : kv.1 ≠ k' := fun hh => h (hk ▸ hh)
      simp [dictSet, hk, dictGet, h, hne]
    · simp only [dictSet, hk, if_false, dictGet]
      by_cases hk' : kv.1 = k'
      · simp [hk']
      · simpa [hk'] using ih

theorem dictGet_dictDel_self {ρ : Type} (m : List (String × ρ)) (k : String) :
    dictGet (dictDel m k) k = none := by
  induction m with
  | nil => simp [dictDel, dictGet]
  | cons kv rest ih =>
    by_cases h : kv.1 = k
    · simpa [dictDel, List.filter, h] using ih
    · simpa [dictDel, List.filter, h, dictGet] using ih

theorem dictHas_dictSet {ρ : Type} (m : List (String × ρ)) (k k' : String) (v : ρ) :
    dictHas (dictSet m k v) k' = (k == k' || dictHas m k') := by
  by_cases h : k = k'
  · subst h; simp [dictHas, dictGet_dictSet_self]
  · simp [dictHas, dictGet_dictSet_ne m k k' v h, h]

/-! ## Concrete filesystems and paths used as witnesses -/

/-- A stat result used by the concrete fixtures. -/
def st0 : StatResult := ⟨0, 0⟩

/-- Build a cached directory entry. -/
def mkEnt (path name : String) (d f l : Bool) : DirEntryReplacement :=
  { path := path, name := name, is_dir_cached := d, is_file_cached := f,
    is_symlink_cached := l, stat_sym := st0, stat_nosym := st0 }

/-- A plain filesystem: `/r` containing file `f1` and directory `d1` with file
`f2`.  `scandir` lists `f1` before `d1` so that the engine's sorting is
exercised. -/
def fs1 : FS :=
  { os_exists := fun s => s == "/r" || s == "/r/f1" || s == "/r/d1" || s == "/r/d1/f2"
    os_isdir := fun s => s == "/r" || s == "/r/d1"
    os_isfile := fun s => s == "/r/f1" || s == "/r/d1/f2"
    os_islink := fun _ => false
    realpath := fun s => s
    entries := fun s =>
      if s == "/r" then
        [mkEnt "/r/f1" "f1" false true false, mkEnt "/r/d1" "d1" true false false]
      else if s == "/r/d1" then [mkEnt "/r/d1/f2" "f2" false true false]
      else []
    stat_sym_of := fun _ => st0
    stat_nosym_of := fun _ => st0 }

/-- The root recursion path of `fs1`. -/
def rRoot : RecursionPath :=
  { root := "/r", relative := "", real := "/r", dir_entry := mkEnt "/r" "r" true false false }

/-- `d1` under `fs1`. -/
def rD1 : RecursionPath :=
  { root := "/r", relative := "d1", real := "/r/d1",
    dir_entry := mkEnt "/r/d1" "d1" true false false }

/-- `f1` under `fs1`. -/
def rF1 : RecursionPath :=
  { root := "/r", relative := "f1", real := "/r/f1",
    dir_entry := mkEnt "/r/f1" "f1" false true false }

/-- `d1/f2` under `fs1`. -/
def rF2 : RecursionPath :=
  { root := "/r", relative := "d1/f2", real := "/r/d1/f2",
    dir_entry := mkEnt "/r/d1/f2" "f2" false true false }

/-- A filesystem with a symlink cycle: `/r` contains directory `d1`, and
`d1` contains the symlink `link` whose real path is `/r/d1` itself. -/
def fs2 : FS :=
  { os_exists := fun s => s == "/r" || s == "/r/d1" || s == "/r/d1/link"
    os_isdir := fun s => s == "/r" || s == "/r/d1" || s == "/r/d1/link"
    os_isfile := fun _ => false
    os_islink := fun s => s == "/r/d1/link"
    realpath := fun s => if s == "/r/d1/link" then "/r/d1" else s
    entries := fun s =>
      if s == "/r" then [mkEnt "/r/d1" "d1" true false false]
      else if s == "/r/d1" then [mkEnt "/r/d1/link" "link" true false true]
      else []
    stat_sym_of := fun _ => st0
    stat_nosym_of := fun _ => st0 }

/-- The root recursion path of `fs2`. -/
def rRoot2 : RecursionPath :=
  { root := "/r", relative := "", real := "/r", dir_entry := mkEnt "/r" "r" true false false }

/-- `d1` under `fs2`. -/
def rD1c : RecursionPath :=
  { root := "/r", relative := "d1", real := "/r/d1",
    dir_entry := mkEnt "/r/d1" "d1" true false false }

/-- The cycle-closing link `d1/link` under `fs2`: a symlink whose real path is
that of its parent `d1`. -/
def rLink : RecursionPath :=
  { root := "/r", relative := "d1/link", real := "/r/d1",
    dir_entry := mkEnt "/r/d1/link" "link" true false true }

/-- A filesystem for the caching claim: `/r` contains the regular file `t`
and two symlinks `la`, `lb` whose real path is `/r/t`. -/
def fs9 : FS :=
  { os_exists := fun s => s == "/r" || s == "/r/t" || s == "/r/la" || s == "/r/lb"
    os_isdir := fun s => s == "/r"
    os_isfile := fun s => s == "/r/t" || s == "/r/la" || s == "/r/lb"
    os_islink := fun s => s == "/r/la" || s == "/r/lb"
    realpath := fun s => if s == "/r/la" || s == "/r/lb" then "/r/t" else s
    entries := fun s =>
      if s == "/r" then
        [mkEnt "/r/t" "t" false true false,
         mkEnt "/r/la" "la" false true true,
         mkEnt "/r/lb" "lb" false true true]
      else []
    stat_sym_of := fun _ => st0
    stat_nosym_of := fun _ => st0 }

/-! ## Auxiliary lemmas about the engine -/

/-- When the children loop aborts with `some out`, the outcome is a propagated
exception or fuel exhaustion, never `ok`. -/
theorem scanChildren_some_not_ok {σ α β : Type}
    (recFn : RecursionPath → Parents → σ → ScanOutcome (ScanNode α β) × Parents × σ)
    (file_apply : σ → RecursionPath → σ × α) (dir_apply : ScanNode α β → β)
    (include_empty : Bool) (subs : List RecursionPath) :
    ∀ parents s files dirs out p' s' f' d',
      scanChildren recFn file_apply dir_apply include_empty subs parents s files dirs =
        (some out, p', s', f', d') →
      ∀ n : ScanNode α β, out ≠ .ok n := by
  induction subs with
  | nil =>
    intro parents s files dirs out p' s' f' d' h n
    simp [scanChildren] at h
  | cons sub rest ih =>
    intro parents s files dirs out p' s' f' d' h n
    rw [scanChildren] at h
    by_cases hd : sub.is_dir true
    · rw [if_pos hd] at h
      rcases hrec : recFn sub parents s with ⟨o, p1, s1⟩
      rw [hrec] at h
      match o with
      | .ok dn => exact ih _ _ _ _ _ _ _ _ _ h n
      | .err e => simp at h; intro hc; rw [hc] at h; exact absurd h.1 (by simp)
      | .fuelOut => simp at h; intro hc; rw [hc] at h; exact absurd h.1 (by simp)
    · rw [if_neg hd] at h
      exact ih _ _ _ _ _ _ _ _ _ h n

/-! ## Claim C1: cyclic links are handled exactly at the cycle-closing link -/

/-- C1.  With `follow_links=True`, reaching a symlinked directory whose real
path is registered in the ancestor map: with `allow_cyclic_links=True` the
call returns `CyclicLinkedDir(path, target_path=previous_path)`; otherwise it
raises `SymlinkRecursionError` carrying both the previously-seen path and the
cycle-closing path.  Moreover an error outcome of a recursive call aborts the
children loop immediately, so the error terminates the entire traversal. -/
theorem claim_C1_cyclic_link {σ α β : Type} (fs : FS)
    (rf : List RecursionPath → List RecursionPath)
    (fa : σ → RecursionPath → σ × α) (da : ScanNode α β → β)
    (allow_cyclic_links include_empty : Bool) (fuel : Nat)
    (path : RecursionPath) (parents : Parents) (s : σ) (previous_path : RecursionPath)
    (hsym : path.is_symlink = true)
    (hprev : dictGet parents path.real = some previous_path) :
    (allow_cyclic_links = true →
      _scantree_recursive fs rf fa da true allow_cyclic_links include_empty
          (fuel + 1) path parents s =
        (.ok (.cyclicLinkedDir path previous_path), parents, s)) ∧
    (allow_cyclic_links = false →
      _scantree_recursive fs rf fa da true allow_cyclic_links include_empty
          (fuel + 1) path parents s =
        (.err (.symlinkRecursionError path.real
            (osPathJoin previous_path.root previous_path.relative)
            (osPathJoin path.root path.relative)), parents, s)) ∧
    (∀ (recFn : RecursionPath → Parents → σ → ScanOutcome (ScanNode α β) × Parents × σ)
        (sub : RecursionPath) (rest : List RecursionPath)
        (files : List α) (dirs : List β) (e : ScanError) (p2 : Parents) (s2 : σ),
      sub.is_dir true = true →
      recFn sub parents s = (.err e, p2, s2) →
      scanChildren recFn fa da include_empty (sub :: rest) parents s files dirs =
        (some (.err e), p2, s2, files, dirs)) := by
  refine ⟨?_, ?_, ?_⟩
  · intro hac; subst hac
    simp [_scantree_recursive, scantreeStep, hsym, hprev]
  · intro hac; subst hac
    simp [_scantree_recursive, scantreeStep, hsym, hprev, SymlinkRecursionError]
  · intro recFn sub rest files dirs e p2 s2 hd hrec
    rw [scanChildren, if_pos hd, hrec]

/-- Witness for C1 on the concrete cyclic filesystem `fs2`, at the
cycle-closing link `d1/link` with `d1` registered as an ancestor. -/
theorem claim_C1_cyclic_link_witness :
    _scantree_recursive fs2 id idFileApply Tree.ofNode true true false 6 rLink
        [("/r/d1", rD1c)] () =
      (.ok (.cyclicLinkedDir rLink rD1c), [("/r/d1", rD1c)], ()) ∧
    _scantree_recursive fs2 id idFileApply Tree.ofNode true false false 6 rLink
        [("/r/d1", rD1c)] () =
      (.err (.symlinkRecursionError "/r/d1" "/r/d1" "/r/d1/link"), [("/r/d1", rD1c)], ()) := by
  constructor
  · exact (claim_C1_cyclic_link fs2 id idFileApply Tree.ofNode true false 5 rLink
      [("/r/d1", rD1c)] () rD1c rfl rfl).1 rfl
  · exact (claim_C1_cyclic_link fs2 id idFileApply Tree.ofNode false false 5 rLink
      [("/r/d1", rD1c)] () rD1c rfl rfl).2.1 rfl

/-! ## Claim C2: the root-validation error

The claim says the invalid-root failure is a `NotADirectoryError`; the code
raises `ValueError` in both cases (`_verify_is_directory`), distinguishing
them by message only. -/

/-- C2 counterexample.  On a root that does not exist the raised error is a
`ValueError`, not the `NotADirectoryError` the claim names. -/
theorem claim_C2_counterexample :
    fs1.os_exists "nope" = false ∧
    _verify_is_directory fs1 "nope" = some (.valueError "nope: No such directory") ∧
    ¬ ∃ msg, _verify_is_directory fs1 "nope" = some (.notADirectoryError msg) := by
  refine ⟨rfl, rfl, ?_⟩
  rintro ⟨msg, h⟩
  rw [show _verify_is_directory fs1 "nope" =
      some (.valueError "nope: No such directory") from rfl] at h
  exact absurd (Option.some.inj h) (by simp)

/-- C2 amended.  For every root that does not exist or is not a directory the
entry point fails before any traversal begins with a `ValueError` (not
`NotADirectoryError`), the two cases distinguished by message: the whole
`scantree` call returns exactly that error, for every combination of the
remaining arguments. -/
theorem claim_C2_invalid_root {σ α β : Type} (fs : FS) (directory : String)
    (rf : List RecursionPath → List RecursionPath)
    (fa : σ → RecursionPath → σ × α) (da : ScanNode α β → β)
    (follow_links allow_cyclic_links include_empty : Bool) (fuel : Nat) (s : σ) :
    (fs.os_exists directory = false →
      (scantree fs rf fa da follow_links allow_cyclic_links include_empty
          fuel directory s).1 =
        .err (.valueError (directory ++ ": No such directory"))) ∧
    (fs.os_exists directory = true → fs.os_isdir directory = false →
      (scantree fs rf fa da follow_links allow_cyclic_links include_empty
          fuel directory s).1 =
        .err (.valueError (directory ++ ": Is not a directory"))) := by
  constructor
  · intro hex
    simp [scantree, _verify_is_directory, hex]
  · intro hex hdir
    simp [scantree, _verify_is_directory, hex, hdir]

/-- Witness for C2 amended: a missing root and a file used as root. -/
theorem claim_C2_invalid_root_witness :
    (scantree fs1 id idFileApply Tree.ofNode true true false 5 "nope" ()).1 =
      .err (.valueError "nope: No such directory") ∧
    (scantree fs1 id idFileApply Tree.ofNode true true false 5 "/r/f1" ()).1 =
      .err (.valueError "/r/f1: Is not a directory") := by
  constructor
  · exact (claim_C2_invalid_root fs1 "nope" id idFileApply Tree.ofNode
      true true false 5 ()).1 rfl
  · exact (claim_C2_invalid_root fs1 "/r/f1" id idFileApply Tree.ofNode
      true true false 5 ()).2 rfl rfl

/-! ## Claim C3: restoration of the ancestor map

The claim says the per-call registration is removed on every exit path,
including error exits.  The code has no `try/finally`: when a
`SymlinkRecursionError` (or any exception) propagates out of a recursive
call, the registrations of the erroring branch stay in the dict.  This is
invisible to callers only because `scantree` seeds a fresh dict per call. -/

/-- C3 counterexample.  Running the engine over the cyclic filesystem with
`allow_cyclic_links=False`: the cycle error propagates, and afterwards the
ancestor map still contains the registration for `d1` (and the root) made by
the erroring branch. -/
theorem claim_C3_counterexample :
    (_scantree_recursive fs2 id idFileApply Tree.ofNode true false false 9 rRoot2
        (dictSet [] "/r" rRoot2) ()).1 =
      .err (.symlinkRecursionError "/r/d1" "/r/d1" "/r/d1/link") ∧
    dictGet (_scantree_recursive fs2 id idFileApply Tree.ofNode true false false 9 rRoot2
        (dictSet [] "/r" rRoot2) ()).2.1 "/r/d1" = some rD1c ∧
    dictGet (_scantree_recursive fs2 id idFileApply Tree.ofNode true false false 9 rRoot2
        (dictSet [] "/r" rRoot2) ()).2.1 "/r" = some rRoot2 := by
  exact ⟨rfl, rfl, rfl⟩

/-- C3 amended.  On every normal completion (the call returns a `DirNode`)
with `follow_links=True`, the entry registered for `path.real` is removed:
the final map has no binding for it.  (On error exits the registration can
remain; `scantree` creates a fresh map per invocation, so the leak is not
observable through the public entry point.) -/
theorem claim_C3_pop_on_normal_return {σ α β : Type} (fs : FS)
    (rf : List RecursionPath → List RecursionPath)
    (fa : σ → RecursionPath → σ × α) (da : ScanNode α β → β)
    (allow_cyclic_links include_empty : Bool) (fuel : Nat)
    (path : RecursionPath) (parents : Parents) (s : σ)
    (node : ScanNode α β) (parents' : Parents) (s' : σ)
    (h : _scantree_recursive fs rf fa da true allow_cyclic_links include_empty
        fuel path parents s = (.ok node, parents', s'))
    (hdir : node.isDirNode = true) :
    dictGet parents' path.real = none := by
  match fuel with
  | 0 => simp [_scantree_recursive] at h
  | fuel + 1 =>
    rw [_scantree_recursive, scantreeStep] at h
    by_cases hsym : path.is_symlink
    · rw [if_pos hsym] at h
      rcases hget : dictGet parents path.real with _ | prev
      · rw [hget] at h
        simp at h
        rcases hloop : scanChildren
            (_scantree_recursive fs rf fa da true allow_cyclic_links include_empty fuel)
            fa da include_empty (childrenOf fs rf path) (dictSet parents path.real path)
            s [] [] with ⟨o, p2, s2, fl, dl⟩
        rw [hloop] at h
        match o with
        | some out =>
          simp only [] at h
          have := scanChildren_some_not_ok _ _ _ _ _ _ _ _ _ _ _ _ _ _ hloop node
          exact absurd (congrArg Prod.fst h) (by simpa using this)
        | none =>
          simp only [] at h
          by_cases hhas : dictHas p2 path.real
          · rw [if_pos hhas] at h
            have hp : parents' = dictDel p2 path.real := (congrArg (fun x => x.2.1) h).symm
            rw [hp]
            exact dictGet_dictDel_self p2 path.real
          · rw [if_neg hhas] at h
            exact absurd (congrArg Prod.fst h).symm (by simp)
      · rw [hget] at h
        simp only [] at h
        rcases hac : allow_cyclic_links with _ | _
        · rw [hac] at h
          simp at h
        · rw [hac] at h
          simp only [if_true] at h
          have hn : node = .cyclicLinkedDir path prev :=
            (ScanOutcome.ok.inj (congrArg Prod.fst h).symm)
          rw [hn] at hdir
          simp [ScanNode.isDirNode] at hdir
    · rw [if_neg hsym] at h
      simp at h
      rcases hloop : scanChildren
          (_scantree_recursive fs rf fa da true allow_cyclic_links include_empty fuel)
          fa da include_empty (childrenOf fs rf path) (dictSet parents path.real path)
          s [] [] with ⟨o, p2, s2, fl, dl⟩
      rw [hloop] at h
      match o with
      | some out =>
        simp only [] at h
        have := scanChildren_some_not_ok _ _ _ _ _ _ _ _ _ _ _ _ _ _ hloop node
        exact absurd (congrArg Prod.fst h) (by simpa using this)
      | none =>
        simp only [] at h
        by_cases hhas : dictHas p2 path.real
        · rw [if_pos hhas] at h
          have hp : parents' = dictDel p2 path.real := (congrArg (fun x => x.2.1) h).symm
          rw [hp]
          exact dictGet_dictDel_self p2 path.real
        · rw [if_neg hhas] at h
          exact absurd (congrArg Prod.fst h).symm (by simp)

/-- Witness for C3 amended: the successful default scan of `fs1` leaves no
binding for the root's real path. -/
theorem claim_C3_pop_on_normal_return_witness :
    dictGet (_scantree_recursive fs1 id idFileApply Tree.ofNode true true false 9 rRoot
        (dictSet [] "/r" rRoot) ()).2.1 "/r" = none :=
  claim_C3_pop_on_normal_return fs1 id idFileApply Tree.ofNode true false 9 rRoot
    (dictSet [] "/r" rRoot) () (.dirNode rRoot [rF1] [.dirNode rD1 [rF2] []])
    (_scantree_recursive fs1 id idFileApply Tree.ofNode true true false 9 rRoot
        (dictSet [] "/r" rRoot) ()).2.1 () rfl rfl

/-! ## Claim C5: `apply(identity, identity)`

The claim says the identity re-fold reproduces the tree.  `DirNode.apply`
constructs the rebuilt node with positional arguments
`DirNode(self.path, [dir results], [file results])` while the attrs field
order is `(path, files, directories)`, so the re-fold swaps the two fields of
every rebuilt `DirNode` — contradicting this claim, the `scantree` docstring
("The same result can be obtained by calling `tree.apply(...)`"), and the
multiprocess layer that relies on `apply` to rebuild the documented tree. -/

/-- A materialized tree with one file and one nonempty subdirectory (the
default scan of `fs1`). -/
def tC5 : Tree RecursionPath := .dirNode rRoot [rF1] [.dirNode rD1 [rF2] []]

/-- C5.  The scanned tree of `fs1` is `tC5`; `apply(identity, identity)` on it
returns the tree with `files`/`directories` swapped in every rebuilt
`DirNode`, which is not deep-equal to the original. -/
theorem claim_C5_apply_identity_swaps :
    scantreeDefault fs1 id true true false 10 "/r" = .ok tC5 ∧
    Tree.applyIdentity tC5 =
      .dirNode rRoot [.node (.dirNode rD1 [] [.base rF2])] [.base rF1] ∧
    Tree.applyIdentity tC5 ≠ Tree.toDyn tC5 := by
  refine ⟨rfl, rfl, ?_⟩
  intro h
  rw [show Tree.applyIdentity tC5 =
      .dirNode rRoot [.node (.dirNode rD1 [] [.base rF2])] [.base rF1] from rfl] at h
  rw [show Tree.toDyn tC5 =
      .dirNode rRoot [.base rF1] [.node (.dirNode rD1 [.base rF2] [])] from rfl] at h
  simp at h

/-! ## Claim C7: equality of `ScanPath` values

The claim says two `ScanPath`s compare equal iff all OS-observable properties
agree.  The attrs-generated equality of `RecursionPath` compares only
`(root, relative, real)` and excludes `_dir_entry` (`eq=False`), so two paths
with identical strings but different cached OS metadata compare equal.  The
OS-observable comparison is instead `DirEntryReplacement.__eq__`. -/

/-- A path whose entry says it is a directory. -/
def pC7a : RecursionPath :=
  { root := "/r", relative := "x", real := "/r/x",
    dir_entry := mkEnt "/r/x" "x" true false false }

/-- The same strings, but the entry says it is a file, not a directory. -/
def pC7b : RecursionPath :=
  { root := "/r", relative := "x", real := "/r/x",
    dir_entry := mkEnt "/r/x" "x" false true false }

/-- C7 counterexample.  `pC7a` and `pC7b` compare equal under the Python
equality although their OS-observable `is_dir`/`is_file` disagree. -/
theorem claim_C7_counterexample :
    RecursionPath.eqPy pC7a pC7b ∧
    pC7a.is_dir true ≠ pC7b.is_dir true ∧
    pC7a.is_file true ≠ pC7b.is_file true := by
  exact ⟨⟨rfl, rfl, rfl⟩, by decide, by decide⟩

/-- C7 amended.  `RecursionPath` equality holds iff `root`, `relative` and
`real` agree, and is invariant under replacing the cached entries; the
all-OS-observable-properties comparison is `DirEntryReplacement.eq`, which
holds iff `path`, `name`, `is_dir`/`is_file` (with and without following
symlinks), `is_symlink`, both `stat` results and `inode` all agree. -/
theorem claim_C7_equality (p q : RecursionPath) (e e' : DirEntryReplacement)
    (a b : DirEntryReplacement) :
    (RecursionPath.eqPy p q ↔
      p.root = q.root ∧ p.relative = q.relative ∧ p.real = q.real) ∧
    (RecursionPath.eqPy p q →
      RecursionPath.eqPy { p with dir_entry := e } { q with dir_entry := e' }) ∧
    (DirEntryReplacement.eq a b = true ↔
      a.path = b.path ∧ a.name = b.name ∧
      a.is_dir true = b.is_dir true ∧ a.is_dir false = b.is_dir false ∧
      a.is_file true = b.is_file true ∧ a.is_file false = b.is_file false ∧
      a.is_symlink = b.is_symlink ∧
      a.stat true = b.stat true ∧ a.stat false = b.stat false ∧
      a.inode = b.inode) := by
  refine ⟨Iff.rfl, ?_, ?_⟩
  · rintro ⟨h1, h2, h3⟩
    exact ⟨h1, h2, h3⟩
  · simp only [DirEntryReplacement.eq, Bool.and_eq_true, beq_iff_eq]
    tauto

/-- Witness for C7 amended, instantiating the equality-invariance conjunct at
the counterexample pair. -/
theorem claim_C7_equality_witness :
    RecursionPath.eqPy
      { pC7a with dir_entry := mkEnt "/r/x" "x" false true false }
      { pC7b with dir_entry := mkEnt "/r/x" "x" true false false } :=
  (claim_C7_equality pC7a pC7b (mkEnt "/r/x" "x" false true false)
    (mkEnt "/r/x" "x" true false false) pC7a.dir_entry pC7b.dir_entry).2.1
    ⟨rfl, rfl, rfl⟩

/-! ## Claim C8: parallel vs sequential traversal

The multiprocess layer re-folds the recorded tree through `DirNode.apply`,
which swaps `files`/`directories` in every rebuilt `DirNode` (see C5), so a
`jobs>1` traversal does not produce the tree the sequential traversal
produces. -/

/-- C8.  On `fs1` with the identity file transform: the sequential traversal
returns `tC5`, while the multiprocess path returns the re-folded tree with
`files`/`directories` swapped at every level — not the same tree. -/
theorem claim_C8_parallel_differs :
    scantreeDefault fs1 id true true false 10 "/r" = .ok tC5 ∧
    _scantree_multiprocess fs1 id (fun p => p) rRoot true true false 10 "/r" =
      .ok (.dirNode rRoot [.node (.dirNode rD1 [] [.base rF2])] [.base rF1]) ∧
    _scantree_multiprocess fs1 id (fun p => p) rRoot true true false 10 "/r" ≠
      .ok (Tree.toDyn tC5) := by
  refine ⟨rfl, rfl, ?_⟩
  intro h
  rw [show _scantree_multiprocess fs1 id (fun p => p) rRoot true true false 10 "/r" =
      .ok (.dirNode rRoot [.node (.dirNode rD1 [] [.base rF2])] [.base rF1]) from rfl] at h
  rw [show Tree.toDyn tC5 =
      .dirNode rRoot [.base rF1] [.node (.dirNode rD1 [.base rF2] [])] from rfl] at h
  simp at h

/-! ## Claim C10: `follow_links=False` -/

theorem noCyclicList_append {α : Type} (l : List (Tree α)) (t : Tree α) :
    Tree.noCyclicLinkedDirList (l ++ [t]) =
      (Tree.noCyclicLinkedDirList l && t.noCyclicLinkedDir) := by
  induction l with
  | nil => simp [Tree.noCyclicLinkedDirList]
  | cons h rest ih => simp [Tree.noCyclicLinkedDirList, ih, Bool.and_assoc]

/-- The children loop with a recursive call that never raises and whose `ok`
results contain no `CyclicLinkedDir`: the loop can only abort with `fuelOut`,
and on completion the accumulated directory nodes contain no
`CyclicLinkedDir`. -/
theorem scanChildren_no_follow {σ α : Type}
    (recFn : RecursionPath → Parents → σ → ScanOutcome (ScanNode α (Tree α)) × Parents × σ)
    (fa : σ → RecursionPath → σ × α) (include_empty : Bool)
    (hrecE : ∀ sub p s e, (recFn sub p s).1 ≠ .err e)
    (hrecC : ∀ sub p s n, (recFn sub p s).1 = .ok n →
      Tree.noCyclicLinkedDir (Tree.ofNode n) = true) :
    ∀ (subs : List RecursionPath) (parents : Parents) (s : σ)
      (files : List α) (dirs : List (Tree α)),
      Tree.noCyclicLinkedDirList dirs = true →
      (∀ out p' s' f' d',
        scanChildren recFn fa Tree.ofNode include_empty subs parents s files dirs =
          (some out, p', s', f', d') → out = .fuelOut) ∧
      (∀ p' s' f' d',
        scanChildren recFn fa Tree.ofNode include_empty subs parents s files dirs =
          (none, p', s', f', d') → Tree.noCyclicLinkedDirList d' = true) := by
  intro subs
  induction subs with
  | nil =>
    intro parents s files dirs hdirs
    constructor
    · intro out p' s' f' d' h
      simp [scanChildren] at h
    · intro p' s' f' d' h
      simp [scanChildren] at h
      exact h.2.2.2 ▸ hdirs
  | cons sub rest ih =>
    intro parents s files dirs hdirs
    by_cases hd : sub.is_dir true
    · rcases hrec : recFn sub parents s with ⟨o, p1, s1⟩
      match o with
      | .ok dn =>
        have hc : Tree.noCyclicLinkedDir (Tree.ofNode dn) = true :=
          hrecC sub parents s dn (by rw [hrec])
        have hdirs1 : Tree.noCyclicLinkedDirList
            (if include_empty || !is_empty_dir_node dn
              then dirs ++ [Tree.ofNode dn] else dirs) = true := by
          by_cases hie : (include_empty || !is_empty_dir_node dn) = true
          · rw [if_pos hie, noCyclicList_append, hdirs, hc]; rfl
          · rw [if_neg hie]; exact hdirs
        have step : scanChildren recFn fa Tree.ofNode include_empty (sub :: rest)
              parents s files dirs =
            scanChildren recFn fa Tree.ofNode include_empty rest p1
              (if sub.is_file true then (fa s1 sub).1 else s1)
              (if sub.is_file true then files ++ [(fa s1 sub).2] else files)
              (if include_empty || !is_empty_dir_node dn
                then dirs ++ [Tree.ofNode dn] else dirs) := by
          rw [scanChildren, if_pos hd, hrec]
        rw [step]
        exact ih p1 _ _ _ hdirs1
      | .err e =>
        have hh : (recFn sub parents s).1 = .err e := by rw [hrec]
        exact absurd hh (hrecE sub parents s e)
      | .fuelOut =>
        have step : scanChildren recFn fa Tree.ofNode include_empty (sub :: rest)
              parents s files dirs = (some .fuelOut, p1, s1, files, dirs) := by
          rw [scanChildren, if_pos hd, hrec]
        constructor
        · intro out p' s' f' d' h
          rw [step] at h
          exact (Option.some.inj (congrArg (fun x => x.1) h)).symm
        · intro p' s' f' d' h
          rw [step] at h
          simp at h
    · have step : scanChildren recFn fa Tree.ofNode include_empty (sub :: rest)
            parents s files dirs =
          scanChildren recFn fa Tree.ofNode include_empty rest parents
            (if sub.is_file true then (fa s sub).1 else s)
            (if sub.is_file true then files ++ [(fa s sub).2] else files) dirs := by
        rw [scanChildren, if_neg hd]
      rw [step]
      exact ih parents _ _ _ hdirs

/-- The engine with `follow_links=False` never raises and yields trees free of
`CyclicLinkedDir` nodes. -/
theorem engine_no_follow_aux {σ α : Type} (fs : FS)
    (rf : List RecursionPath → List RecursionPath) (fa : σ → RecursionPath → σ × α)
    (allow_cyclic_links include_empty : Bool) :
    ∀ (fuel : Nat) (path : RecursionPath) (parents : Parents) (s : σ),
      (∀ e, (_scantree_recursive fs rf fa Tree.ofNode false allow_cyclic_links
        include_empty fuel path parents s).1 ≠ .err e) ∧
      (∀ n, (_scantree_recursive fs rf fa Tree.ofNode false allow_cyclic_links
        include_empty fuel path parents s).1 = .ok n →
        Tree.noCyclicLinkedDir (Tree.ofNode n) = true) := by
  intro fuel
  induction fuel with
  | zero =>
    intro path parents s
    constructor
    · intro e h; simp [_scantree_recursive] at h
    · intro n h; simp [_scantree_recursive] at h
  | succ fuel ih =>
    intro path parents s
    have hrecE : ∀ sub p s' e,
        ((_scantree_recursive fs rf fa Tree.ofNode false allow_cyclic_links
          include_empty fuel) sub p s').1 ≠ .err e := fun sub p s' => (ih sub p s').1
    have hrecC : ∀ sub p s' n,
        ((_scantree_recursive fs rf fa Tree.ofNode false allow_cyclic_links
          include_empty fuel) sub p s').1 = .ok n →
        Tree.noCyclicLinkedDir (Tree.ofNode n) = true := fun sub p s' => (ih sub p s').2
    rw [_scantree_recursive, scantreeStep]
    by_cases hsym : path.is_symlink
    · rw [if_pos hsym]
      simp only [show ((false : Bool) = false) = True by simp, if_true]
      constructor
      · intro e h; simp at h
      · intro n h
        simp at h
        rw [← h]
        rfl
    · rw [if_neg hsym]
      simp only [show ((false : Bool) = true) = False by simp, if_false]
      rcases hloop : scanChildren
          (_scantree_recursive fs rf fa Tree.ofNode false allow_cyclic_links
            include_empty fuel)
          fa Tree.ofNode include_empty (childrenOf fs rf path) parents s [] []
          with ⟨o, p2, s2, fl, dl⟩
      have hmain := scanChildren_no_follow
        (_scantree_recursive fs rf fa Tree.ofNode false allow_cyclic_links
          include_empty fuel)
        fa include_empty hrecE hrecC (childrenOf fs rf path) parents s [] [] rfl
      match o with
      | some out =>
        have : out = .fuelOut := hmain.1 out p2 s2 fl dl hloop
        subst this
        constructor
        · intro e h; simp at h
        · intro n h; simp at h
      | none =>
        have hdl : Tree.noCyclicLinkedDirList dl = true := hmain.2 p2 s2 fl dl hloop
        constructor
        · intro e h; simp at h
        · intro n h
          simp at h
          rw [← h]
          simpa [Tree.ofNode, Tree.noCyclicLinkedDir] using hdl

/-- C10.  With `follow_links=False` a symlinked directory is returned as a
`LinkedDir` immediately (no cycle check, no enumeration, and the `parents`
map and file-apply state are untouched); for any `allow_cyclic_links` setting
and any filesystem the traversal never raises any error — in particular no
`SymlinkRecursionError` — and the resulting tree contains no
`CyclicLinkedDir` node. -/
theorem claim_C10_follow_links_false {σ α : Type} (fs : FS)
    (rf : List RecursionPath → List RecursionPath) (fa : σ → RecursionPath → σ × α)
    (allow_cyclic_links include_empty : Bool) (fuel : Nat)
    (path : RecursionPath) (parents : Parents) (s : σ) :
    (path.is_symlink = true →
      _scantree_recursive fs rf fa Tree.ofNode false allow_cyclic_links include_empty
        (fuel + 1) path parents s = (.ok (.linkedDir path), parents, s)) ∧
    (∀ e, (_scantree_recursive fs rf fa Tree.ofNode false allow_cyclic_links
      include_empty fuel path parents s).1 ≠ .err e) ∧
    (∀ n, (_scantree_recursive fs rf fa Tree.ofNode false allow_cyclic_links
      include_empty fuel path parents s).1 = .ok n →
      Tree.noCyclicLinkedDir (Tree.ofNode n) = true) := by
  refine ⟨?_, (engine_no_follow_aux fs rf fa allow_cyclic_links include_empty
    fuel path parents s).1,
    (engine_no_follow_aux fs rf fa allow_cyclic_links include_empty
      fuel path parents s).2⟩
  intro hsym
  rw [_scantree_recursive, scantreeStep]
  rw [if_pos hsym]
  simp

/-- Witness for C10: the symlink `d1/link` of the cyclic filesystem `fs2` is
returned as a `LinkedDir` immediately, and the full `follow_links=False` scan
of `fs2` succeeds with a cycle-free tree. -/
theorem claim_C10_follow_links_false_witness :
    _scantree_recursive fs2 id idFileApply Tree.ofNode false true false 6 rLink
        [("/r/d1", rD1c)] () = (.ok (.linkedDir rLink), [("/r/d1", rD1c)], ()) ∧
    Tree.noCyclicLinkedDir (Tree.ofNode
      ((.dirNode rRoot2 [] [.dirNode rD1c [] [.linkedDir rLink]]) :
        ScanNode RecursionPath (Tree RecursionPath))) = true := by
  constructor
  · exact (claim_C10_follow_links_false fs2 id idFileApply true false 5 rLink
      [("/r/d1", rD1c)] ()).1 rfl
  · exact (claim_C10_follow_links_false fs2 id idFileApply true false 9 rRoot2
      (dictSet [] "/r" rRoot2) ()).2.2
      (.dirNode rRoot2 [] [.dirNode rD1c [] [.linkedDir rLink]]) rfl

/-! ## Inversion: how an `ok` `DirNode` outcome arises -/

/-- A `DirNode` outcome of the engine carries the input path and comes from a
completed (not aborted) children loop over `childrenOf` at one fuel unit
less, with the registration applied when links are followed. -/
theorem engine_ok_dirNode {σ α β : Type} (fs : FS)
    (rf : List RecursionPath → List RecursionPath)
    (fa : σ → RecursionPath → σ × α) (da : ScanNode α β → β)
    (follow_links allow_cyclic_links include_empty : Bool) :
    ∀ (fuel : Nat) (path : RecursionPath) (parents : Parents) (s : σ)
      (q : RecursionPath) (fls : List α) (drs : List β) (p' : Parents) (s' : σ),
      _scantree_recursive fs rf fa da follow_links allow_cyclic_links include_empty
          fuel path parents s = (.ok (.dirNode q fls drs), p', s') →
      q = path ∧
      ∃ fuel0 p2, fuel = fuel0 + 1 ∧
        scanChildren
          (_scantree_recursive fs rf fa da follow_links allow_cyclic_links
            include_empty fuel0)
          fa da include_empty (childrenOf fs rf path)
          (if follow_links then dictSet parents path.real path else parents) s [] [] =
          (none, p2, s', fls, drs) := by
  intro fuel path parents s q fls drs p' s' h
  match fuel with
  | 0 => simp [_scantree_recursive] at h
  | fuel + 1 =>
    rw [_scantree_recursive, scantreeStep] at h
    by_cases hsym : path.is_symlink
    · rw [if_pos hsym] at h
      by_cases hfl : follow_links
      · rw [hfl] at h
        simp only [show ((true : Bool) = false) = False by simp, if_false] at h
        rcases hget : dictGet parents path.real with _ | prev
        · rw [hget] at h
          simp at h
          rcases hloop : scanChildren
              (_scantree_recursive fs rf fa da follow_links allow_cyclic_links
                include_empty fuel)
              fa da include_empty (childrenOf fs rf path)
              (dictSet parents path.real path) s [] [] with ⟨o, p2, s2, flv, dlv⟩
          rw [hfl] at hloop
          rw [hloop] at h
          match o with
          | some out =>
            simp only [] at h
            have := scanChildren_some_not_ok _ _ _ _ _ _ _ _ _ _ _ _ _ _ hloop
              (.dirNode q fls drs)
            exact absurd (congrArg Prod.fst h) (by simpa using this)
          | none =>
            simp only [] at h
            by_cases hhas : dictHas p2 path.real
            · rw [if_pos hhas] at h
              simp at h
              obtain ⟨⟨hq, hf, hd⟩, _, hs⟩ := h
              refine ⟨hq.symm, fuel, p2, rfl, ?_⟩
              rw [hfl]
              simp only [show ((true : Bool) = true) = True by simp, if_true]
              rw [hloop, hf, hd, hs]
            · rw [if_neg hhas] at h
              simp at h
        · rw [hget] at h
          rcases hac : allow_cyclic_links with _ | _
          · rw [hac] at h; simp at h
          · rw [hac] at h; simp at h
      · have hfl' : follow_links = false := by simpa using hfl
        rw [hfl'] at h
        simp at h
    · rw [if_neg hsym] at h
      simp only [] at h
      rcases hloop : scanChildren
          (_scantree_recursive fs rf fa da follow_links allow_cyclic_links
            include_empty fuel)
          fa da include_empty (childrenOf fs rf path)
          (if follow_links then dictSet parents path.real path else parents)
          s [] [] with ⟨o, p2, s2, flv, dlv⟩
      rw [hloop] at h
      match o with
      | some out =>
        simp only [] at h
        have := scanChildren_some_not_ok _ _ _ _ _ _ _ _ _ _ _ _ _ _ hloop
          (.dirNode q fls drs)
        exact absurd (congrArg Prod.fst h) (by simpa using this)
      | none =>
        simp only [] at h
        by_cases hfl : follow_links
        · rw [hfl] at h
          simp only [show ((true : Bool) = true) = True by simp, if_true] at h
          by_cases hhas : dictHas p2 path.real
          · rw [if_pos hhas] at h
            simp at h
            obtain ⟨⟨hq, hf, hd⟩, _, hs⟩ := h
            refine ⟨hq.symm, fuel, p2, rfl, ?_⟩
            rw [hfl]
            simp only [show ((true : Bool) = true) = True by simp, if_true]
            rw [hfl] at hloop
            simp only [show ((true : Bool) = true) = True by simp, if_true] at hloop
            rw [hloop, hf, hd, hs]
          · rw [if_neg hhas] at h
            simp at h
        · have hfl' : follow_links = false := by simpa using hfl
          rw [hfl'] at h
          simp only [show ((false : Bool) = true) = False by simp, if_false] at h
          simp at h
          obtain ⟨⟨hq, hf, hd⟩, hp, hs⟩ := h
          refine ⟨hq.symm, fuel, p2, rfl, ?_⟩
          rw [hfl']
          simp only [show ((false : Bool) = true) = False by simp, if_false]
          rw [hfl'] at hloop
          simp only [show ((false : Bool) = true) = False by simp, if_false] at hloop
          rw [hloop, hf, hd, hs]

/-! ## Claim C4: `include_empty` -/

theorem isEmptyDirNode_ofNode {α : Type} (n : ScanNode α (Tree α)) :
    (Tree.ofNode n).isEmptyDirNode = is_empty_dir_node n := by
  cases n <;> rfl

theorem noEmptyList_append {α : Type} (l : List (Tree α)) (t : Tree α) :
    Tree.noEmptyDirChildrenList (l ++ [t]) =
      (Tree.noEmptyDirChildrenList l && (!t.isEmptyDirNode && t.noEmptyDirChildren)) := by
  induction l with
  | nil => simp [Tree.noEmptyDirChildrenList]
  | cons h rest ih => simp [Tree.noEmptyDirChildrenList, ih, Bool.and_assoc]

/-- The children loop with `include_empty=False` and a recursive call whose
`ok` results contain no empty-`DirNode` descendants: on completion the
accumulated directory nodes are nonempty and free of empty descendants. -/
theorem scanChildren_no_empty {σ α : Type}
    (recFn : RecursionPath → Parents → σ → ScanOutcome (ScanNode α (Tree α)) × Parents × σ)
    (fa : σ → RecursionPath → σ × α)
    (hrecC : ∀ sub p s n p' s', recFn sub p s = (.ok n, p', s') →
      Tree.noEmptyDirChildren (Tree.ofNode n) = true) :
    ∀ (subs : List RecursionPath) (parents : Parents) (s : σ)
      (files : List α) (dirs : List (Tree α)),
      Tree.noEmptyDirChildrenList dirs = true →
      ∀ p' s' f' d',
        scanChildren recFn fa Tree.ofNode false subs parents s files dirs =
          (none, p', s', f', d') →
        Tree.noEmptyDirChildrenList d' = true := by
  intro subs
  induction subs with
  | nil =>
    intro parents s files dirs hdirs p' s' f' d' h
    simp [scanChildren] at h
    exact h.2.2.2 ▸ hdirs
  | cons sub rest ih =>
    intro parents s files dirs hdirs p' s' f' d' h
    by_cases hd : sub.is_dir true
    · rw [scanChildren, if_pos hd] at h
      rcases hrec : recFn sub parents s with ⟨o, p1, s1⟩
      rw [hrec] at h
      match o with
      | .ok dn =>
        have hc : Tree.noEmptyDirChildren (Tree.ofNode dn) = true :=
          hrecC sub parents s dn p1 s1 hrec
        have hdirs1 : Tree.noEmptyDirChildrenList
            (if false || !is_empty_dir_node dn
              then dirs ++ [Tree.ofNode dn] else dirs) = true := by
          by_cases hie : (false || !is_empty_dir_node dn) = true
          · rw [if_pos hie, noEmptyList_append, hdirs, hc]
            have hne : (Tree.ofNode dn).isEmptyDirNode = false := by
              rw [isEmptyDirNode_ofNode]
              simpa using hie
            rw [hne]
            rfl
          · rw [if_neg hie]; exact hdirs
        exact ih p1 _ _ _ hdirs1 p' s' f' d' h
      | .err e => simp at h
      | .fuelOut => simp at h
    · rw [scanChildren, if_neg hd] at h
      exact ih parents _ _ _ hdirs p' s' f' d' h

/-- The engine with `include_empty=False` yields trees without empty
`DirNode` descendants (the root itself may be empty). -/
theorem engine_no_empty_aux {σ α : Type} (fs : FS)
    (rf : List RecursionPath → List RecursionPath) (fa : σ → RecursionPath → σ × α)
    (follow_links allow_cyclic_links : Bool) :
    ∀ (fuel : Nat) (path : RecursionPath) (parents : Parents) (s : σ)
      (n : ScanNode α (Tree α)) (p' : Parents) (s' : σ),
      _scantree_recursive fs rf fa Tree.ofNode follow_links allow_cyclic_links false
          fuel path parents s = (.ok n, p', s') →
      Tree.noEmptyDirChildren (Tree.ofNode n) = true := by
  intro fuel
  induction fuel with
  | zero =>
    intro path parents s n p' s' h
    simp [_scantree_recursive] at h
  | succ fuel ih =>
    intro path parents s n p' s' h
    match n with
    | .linkedDir _ => rfl
    | .cyclicLinkedDir _ _ => rfl
    | .dirNode q fls drs =>
      obtain ⟨hq, fuel0, p2, hfuel, hloop⟩ :=
        engine_ok_dirNode fs rf fa Tree.ofNode follow_links allow_cyclic_links false
          (fuel + 1) path parents s q fls drs p' s' h
      have hfuel0 : fuel0 = fuel := by omega
      rw [hfuel0] at hloop
      have := scanChildren_no_empty
        (_scantree_recursive fs rf fa Tree.ofNode follow_links allow_cyclic_links
          false fuel) fa
        (fun sub p s n p' s' hh => ih sub p s n p' s' hh)
        (childrenOf fs rf path)
        (if follow_links then dictSet parents path.real path else parents)
        s [] [] rfl p2 s' fls drs hloop
      simpa [Tree.ofNode, Tree.noEmptyDirChildren] using this

/-- The children loop with `include_empty=True` appends one directory node
per directory child. -/
theorem scanChildren_count_include_empty {σ α β : Type}
    (recFn : RecursionPath → Parents → σ → ScanOutcome (ScanNode α β) × Parents × σ)
    (fa : σ → RecursionPath → σ × α) (da : ScanNode α β → β) :
    ∀ (subs : List RecursionPath) (parents : Parents) (s : σ)
      (files : List α) (dirs : List β) (p' : Parents) (s' : σ) f' (d' : List β),
      scanChildren recFn fa da true subs parents s files dirs =
        (none, p', s', f', d') →
      d'.length = dirs.length + subs.countP (fun sub => sub.is_dir true) := by
  intro subs
  induction subs with
  | nil =>
    intro parents s files dirs p' s' f' d' h
    simp [scanChildren] at h
    simp [h.2.2.2.symm]
  | cons sub rest ih =>
    intro parents s files dirs p' s' f' d' h
    by_cases hd : sub.is_dir true
    · rw [scanChildren, if_pos hd] at h
      rcases hrec : recFn sub parents s with ⟨o, p1, s1⟩
      rw [hrec] at h
      match o with
      | .ok dn =>
        simp only [Bool.true_or, if_pos] at h
        have := ih p1 _ _ _ p' s' f' d' h
        rw [this]
        simp [List.countP_cons, hd]
        omega
      | .err e => simp at h
      | .fuelOut => simp at h
    · rw [scanChildren, if_neg hd] at h
      have := ih parents _ _ _ p' s' f' d' h
      rw [this]
      simp [List.countP_cons, hd]

/-- C4.  With `include_empty=False` (the default) no `DirNode` anywhere below
the returned root is empty — only the root itself may be; with
`include_empty=True` every directory child contributes its node: the
`directories` list of each produced `DirNode` has exactly one entry per
directory among the enumerated children. -/
theorem claim_C4_include_empty {σ α : Type} (fs : FS)
    (rf : List RecursionPath → List RecursionPath) (fa : σ → RecursionPath → σ × α)
    (follow_links allow_cyclic_links : Bool) (fuel : Nat)
    (path : RecursionPath) (parents : Parents) (s : σ) :
    (∀ (n : ScanNode α (Tree α)) (p' : Parents) (s' : σ),
      _scantree_recursive fs rf fa Tree.ofNode follow_links allow_cyclic_links false
          fuel path parents s = (.ok n, p', s') →
      Tree.noEmptyDirChildren (Tree.ofNode n) = true) ∧
    (∀ (q : RecursionPath) (fls : List α) (drs : List (Tree α))
        (p' : Parents) (s' : σ),
      _scantree_recursive fs rf fa Tree.ofNode follow_links allow_cyclic_links true
          fuel path parents s = (.ok (.dirNode q fls drs), p', s') →
      drs.length = (childrenOf fs rf path).countP (fun sub => sub.is_dir true)) := by
  constructor
  · intro n p' s' h
    exact engine_no_empty_aux fs rf fa follow_links allow_cyclic_links
      fuel path parents s n p' s' h
  · intro q fls drs p' s' h
    obtain ⟨hq, fuel0, p2, hfuel, hloop⟩ :=
      engine_ok_dirNode fs rf fa Tree.ofNode follow_links allow_cyclic_links true
        fuel path parents s q fls drs p' s' h
    have := scanChildren_count_include_empty
      (_scantree_recursive fs rf fa Tree.ofNode follow_links allow_cyclic_links
        true fuel0) fa Tree.ofNode
      (childrenOf fs rf path)
      (if follow_links then dictSet parents path.real path else parents)
      s [] [] p2 s' fls drs hloop
    simpa using this

/-- Witness for C4 on `fs1`: the default scan has no empty `DirNode`
descendants, and with `include_empty=True` the root's `directories` list has
exactly one entry, matching the one directory among the root's children. -/
theorem claim_C4_include_empty_witness :
    Tree.noEmptyDirChildren (Tree.ofNode
      ((.dirNode rRoot [rF1] [.dirNode rD1 [rF2] []]) :
        ScanNode RecursionPath (Tree RecursionPath))) = true ∧
    ([Tree.dirNode rD1 [rF2] []].length =
      (childrenOf fs1 id rRoot).countP (fun sub => sub.is_dir true)) := by
  constructor
  · exact (claim_C4_include_empty fs1 id idFileApply true true 9 rRoot
      (dictSet [] "/r" rRoot) ()).1
      (.dirNode rRoot [rF1] [.dirNode rD1 [rF2] []])
      (_scantree_recursive fs1 id idFileApply Tree.ofNode true true false 9 rRoot
        (dictSet [] "/r" rRoot) ()).2.1 () rfl
  · exact (claim_C4_include_empty fs1 id idFileApply true true 9 rRoot
      (dictSet [] "/r" rRoot) ()).2 rRoot [rF1] [Tree.dirNode rD1 [rF2] []]
      (_scantree_recursive fs1 id idFileApply Tree.ofNode true true true 9 rRoot
        (dictSet [] "/r" rRoot) ()).2.1 () rfl

/-! ## Claim C9: caching of `file_apply` by real path

The number of invocations of the underlying file transform is observed by
instrumenting it to log the real path of each call (`recordReal`): the
engine's control flow does not depend on `file_apply` results, so a run with
the logging transform and a run with its `_cached_by_realpath` wrapping
traverse identically, and the cached run's log is the first-occurrence
deduplication of the uncached run's log. -/

/-- First-occurrence deduplication, with an accumulator of seen keys. -/
def dedupFirstAux : List String → List String → List String
  | _, [] => []
  | seen, x :: xs =>
    if seen.contains x then dedupFirstAux seen xs
    else x :: dedupFirstAux (seen ++ [x]) xs

/-- Keep the first occurrence of each string. -/
def dedupFirst (l : List String) : List String := dedupFirstAux [] l

theorem dedupFirstAux_append (r : String) : ∀ (l seen : List String),
    dedupFirstAux seen (l ++ [r]) =
      dedupFirstAux seen l ++
        (if seen.contains r || l.contains r then [] else [r]) := by
  intro l
  induction l with
  | nil =>
    intro seen
    by_cases h : seen.contains r
    · simp [dedupFirstAux, h]
    · simp [dedupFirstAux, h]
  | cons x xs ih =>
    intro seen
    by_cases hx : seen.contains x
    · rw [List.cons_append, dedupFirstAux, if_pos hx, ih seen, dedupFirstAux, if_pos hx]
      congr 1
      have hx2 : x ∈ seen := by simpa using hx
      by_cases h1 : r = x <;> by_cases h2 : r ∈ seen <;> by_cases h3 : r ∈ xs <;>
        simp_all
    · rw [List.cons_append, dedupFirstAux, if_neg hx, ih (seen ++ [x]), dedupFirstAux,
        if_neg hx, List.cons_append]
      congr 2
      by_cases h1 : r = x <;> by_cases h2 : r ∈ seen <;> by_cases h3 : r ∈ xs <;>
        simp_all

theorem dedupFirst_append (l : List String) (r : String) :
    dedupFirst (l ++ [r]) =
      dedupFirst l ++ (if l.contains r then [] else [r]) := by
  simpa [dedupFirst] using dedupFirstAux_append r l []

theorem count_dedupFirstAux (r : String) : ∀ (l seen : List String),
    (dedupFirstAux seen l).count r =
      if seen.contains r = false ∧ l.contains r = true then 1 else 0 := by
  intro l
  induction l with
  | nil => intro seen; simp [dedupFirstAux]
  | cons x xs ih =>
    intro seen
    by_cases hx : seen.contains x
    · rw [dedupFirstAux, if_pos hx, ih seen]
      have hx2 : x ∈ seen := by simpa using hx
      by_cases h1 : r = x <;> by_cases h2 : r ∈ seen <;> by_cases h3 : r ∈ xs <;>
        simp_all
    · rw [dedupFirstAux, if_neg hx, List.count_cons, ih (seen ++ [x])]
      have hx2 : ¬ x ∈ seen := by simpa using hx
      by_cases h1 : r = x <;> by_cases h2 : r ∈ seen <;> by_cases h3 : r ∈ xs <;>
        simp_all <;> exact fun h => h1 h.symm

theorem count_dedupFirst (l : List String) (r : String) :
    (dedupFirst l).count r = if l.contains r then 1 else 0 := by
  rw [dedupFirst, count_dedupFirstAux r l []]
  simp

/-- The logging file transform: record the real path of every invocation. -/
def recordReal : List String → RecursionPath → List String × Unit :=
  fun log path => (log ++ [path.real], ())

/-- Relation between the state of the uncached logging run and the state of
the run through `_cached_by_realpath`: the cached run has invoked the
underlying transform exactly at first occurrences, and its cache holds
exactly the reals seen so far. -/
def cacheRel (log : List String) (st : List String × List (String × Unit)) : Prop :=
  st.1 = dedupFirst log ∧ ∀ k, dictHas st.2 k = log.contains k

/-- One `file_apply` call preserves `cacheRel` and produces equal values. -/
theorem cacheRel_step (log : List String) (st : List String × List (String × Unit))
    (p : RecursionPath) (h : cacheRel log st) :
    cacheRel (recordReal log p).1 (_cached_by_realpath recordReal st p).1 ∧
    (recordReal log p).2 = (_cached_by_realpath recordReal st p).2 := by
  obtain ⟨hlog, hmem⟩ := h
  refine ⟨?_, Subsingleton.elim _ _⟩
  rw [_cached_by_realpath]
  rcases hget : dictGet st.2 p.real with _ | v
  · have hnotin : log.contains p.real = false := by
      rw [← hmem p.real]; simp [dictHas, hget]
    constructor
    · show (recordReal st.1 p).1 = dedupFirst (log ++ [p.real])
      rw [dedupFirst_append, hnotin, hlog]
      rfl
    · intro k
      show dictHas (dictSet st.2 p.real ((recordReal st.1 p).2)) k =
        (log ++ [p.real]).contains k
      rw [dictHas_dictSet, hmem k]
      by_cases h1 : k = p.real <;> by_cases h2 : k ∈ log <;>
        simp_all [List.mem_append] <;> exact fun h => h1 h.symm
  · have hin : log.contains p.real = true := by
      rw [← hmem p.real]; simp [dictHas, hget]
    constructor
    · show st.1 = dedupFirst (log ++ [p.real])
      rw [dedupFirst_append, hin, hlog]
      simp
    · intro k
      show dictHas st.2 k = (log ++ [p.real]).contains k
      rw [hmem k]
      by_cases h1 : k = p.real <;> simp_all [List.mem_append]

/-- The children loop is insensitive to the `file_apply` state representation:
two loops whose file-appliers produce equal values from `R`-related states and
whose recursive calls agree on outcome and parents and preserve `R`, produce
equal outcomes, parents, files and directories, and `R`-related states. -/
theorem scanChildren_sim {σ₁ σ₂ α β : Type} (R : σ₁ → σ₂ → Prop)
    (recFn₁ : RecursionPath → Parents → σ₁ → ScanOutcome (ScanNode α β) × Parents × σ₁)
    (recFn₂ : RecursionPath → Parents → σ₂ → ScanOutcome (ScanNode α β) × Parents × σ₂)
    (fa₁ : σ₁ → RecursionPath → σ₁ × α) (fa₂ : σ₂ → RecursionPath → σ₂ × α)
    (da : ScanNode α β → β) (include_empty : Bool)
    (hfa : ∀ s₁ s₂ p, R s₁ s₂ →
      R (fa₁ s₁ p).1 (fa₂ s₂ p).1 ∧ (fa₁ s₁ p).2 = (fa₂ s₂ p).2)
    (hrec : ∀ sub parents s₁ s₂, R s₁ s₂ →
      (recFn₁ sub parents s₁).1 = (recFn₂ sub parents s₂).1 ∧
      (recFn₁ sub parents s₁).2.1 = (recFn₂ sub parents s₂).2.1 ∧
      R (recFn₁ sub parents s₁).2.2 (recFn₂ sub parents s₂).2.2) :
    ∀ (subs : List RecursionPath) (parents : Parents) (s₁ : σ₁) (s₂ : σ₂)
      (files : List α) (dirs : List β), R s₁ s₂ →
      (scanChildren recFn₁ fa₁ da include_empty subs parents s₁ files dirs).1 =
        (scanChildren recFn₂ fa₂ da include_empty subs parents s₂ files dirs).1 ∧
      (scanChildren recFn₁ fa₁ da include_empty subs parents s₁ files dirs).2.1 =
        (scanChildren recFn₂ fa₂ da include_empty subs parents s₂ files dirs).2.1 ∧
      (scanChildren recFn₁ fa₁ da include_empty subs parents s₁ files dirs).2.2.2.1 =
        (scanChildren recFn₂ fa₂ da include_empty subs parents s₂ files dirs).2.2.2.1 ∧
      (scanChildren recFn₁ fa₁ da include_empty subs parents s₁ files dirs).2.2.2.2 =
        (scanChildren recFn₂ fa₂ da include_empty subs parents s₂ files dirs).2.2.2.2 ∧
      R (scanChildren recFn₁ fa₁ da include_empty subs parents s₁ files dirs).2.2.1
        (scanChildren recFn₂ fa₂ da include_empty subs parents s₂ files dirs).2.2.1 := by
  intro subs
  induction subs with
  | nil =>
    intro parents s₁ s₂ files dirs hR
    exact ⟨rfl, rfl, rfl, rfl, by simpa [scanChildren] using hR⟩
  | cons sub rest ih =>
    intro parents s₁ s₂ files dirs hR
    by_cases hd : sub.is_dir true
    · obtain ⟨ho, hp, hR1⟩ := hrec sub parents s₁ s₂ hR
      rcases h₁ : recFn₁ sub parents s₁ with ⟨o₁, p₁, t₁⟩
      rcases h₂ : recFn₂ sub parents s₂ with ⟨o₂, p₂, t₂⟩
      rw [h₁, h₂] at ho hp hR1
      simp only [] at ho hp hR1
      subst ho hp
      rw [scanChildren, if_pos hd, h₁, scanChildren, if_pos hd, h₂]
      match o₁ with
      | .ok dn =>
        by_cases hf : sub.is_file true
        · obtain ⟨hfR, hfv⟩ := hfa t₁ t₂ sub hR1
          simp only [hf, show ((true : Bool) = true) = True by simp, if_true]
          rw [hfv]
          exact ih p₁ _ _ _ _ hfR
        · have hf' : sub.is_file true = false := by simpa using hf
          simp only [hf', show ((false : Bool) = true) = False by simp, if_false]
          exact ih p₁ _ _ _ _ hR1
      | .err e => exact ⟨rfl, rfl, rfl, rfl, hR1⟩
      | .fuelOut => exact ⟨rfl, rfl, rfl, rfl, hR1⟩
    · rw [scanChildren, if_neg hd, scanChildren, if_neg hd]
      by_cases hf : sub.is_file true
      · obtain ⟨hfR, hfv⟩ := hfa s₁ s₂ sub hR
        simp only [hf, show ((true : Bool) = true) = True by simp, if_true]
        rw [hfv]
        exact ih parents _ _ _ _ hfR
      · have hf' : sub.is_file true = false := by simpa using hf
        simp only [hf', show ((false : Bool) = true) = False by simp, if_false]
        exact ih parents _ _ _ _ hR

/-- One engine level is likewise insensitive to the `file_apply` state
representation. -/
theorem scantreeStep_sim {σ₁ σ₂ α β : Type} (R : σ₁ → σ₂ → Prop) (fs : FS)
    (rf : List RecursionPath → List RecursionPath)
    (fa₁ : σ₁ → RecursionPath → σ₁ × α) (fa₂ : σ₂ → RecursionPath → σ₂ × α)
    (da : ScanNode α β → β) (follow_links allow_cyclic_links include_empty : Bool)
    (recFn₁ : RecursionPath → Parents → σ₁ → ScanOutcome (ScanNode α β) × Parents × σ₁)
    (recFn₂ : RecursionPath → Parents → σ₂ → ScanOutcome (ScanNode α β) × Parents × σ₂)
    (hfa : ∀ s₁ s₂ p, R s₁ s₂ →
      R (fa₁ s₁ p).1 (fa₂ s₂ p).1 ∧ (fa₁ s₁ p).2 = (fa₂ s₂ p).2)
    (hrec : ∀ sub parents s₁ s₂, R s₁ s₂ →
      (recFn₁ sub parents s₁).1 = (recFn₂ sub parents s₂).1 ∧
      (recFn₁ sub parents s₁).2.1 = (recFn₂ sub parents s₂).2.1 ∧
      R (recFn₁ sub parents s₁).2.2 (recFn₂ sub parents s₂).2.2) :
    ∀ (path : RecursionPath) (parents : Parents) (s₁ : σ₁) (s₂ : σ₂), R s₁ s₂ →
      (scantreeStep fs rf fa₁ da follow_links allow_cyclic_links include_empty
          recFn₁ path parents s₁).1 =
        (scantreeStep fs rf fa₂ da follow_links allow_cyclic_links include_empty
          recFn₂ path parents s₂).1 ∧
      (scantreeStep fs rf fa₁ da follow_links allow_cyclic_links include_empty
          recFn₁ path parents s₁).2.1 =
        (scantreeStep fs rf fa₂ da follow_links allow_cyclic_links include_empty
          recFn₂ path parents s₂).2.1 ∧
      R (scantreeStep fs rf fa₁ da follow_links allow_cyclic_links include_empty
          recFn₁ path parents s₁).2.2
        (scantreeStep fs rf fa₂ da follow_links allow_cyclic_links include_empty
          recFn₂ path parents s₂).2.2 := by
  intro path parents s₁ s₂ hR
  obtain ⟨hso, hsp, hsf, hsd, hsR⟩ := scanChildren_sim R recFn₁ recFn₂ fa₁ fa₂ da
    include_empty hfa hrec (childrenOf fs rf path)
    (if follow_links then dictSet parents path.real path else parents) s₁ s₂ [] [] hR
  rcases hl₁ : scanChildren recFn₁ fa₁ da include_empty (childrenOf fs rf path)
      (if follow_links then dictSet parents path.real path else parents) s₁ [] []
    with ⟨o₁, p₁, t₁, f₁, d₁⟩
  rcases hl₂ : scanChildren recFn₂ fa₂ da include_empty (childrenOf fs rf path)
      (if follow_links then dictSet parents path.real path else parents) s₂ [] []
    with ⟨o₂, p₂, t₂, f₂, d₂⟩
  rw [hl₁, hl₂] at hso hsp hsf hsd hsR
  simp only [] at hso hsp hsf hsd hsR
  subst hso hsp hsf hsd
  rw [scantreeStep, scantreeStep]
  by_cases hsym : path.is_symlink
  · rw [if_pos hsym]
    by_cases hfl : follow_links = false
    · rw [if_pos hfl]
      exact ⟨rfl, rfl, hR⟩
    · rw [if_neg hfl]
      rcases hget : dictGet parents path.real with _ | prev
      · simp only []
        rw [hl₁, hl₂]
        match o₁ with
        | some out => exact ⟨rfl, rfl, hsR⟩
        | none =>
          by_cases hfl2 : follow_links
          · rw [hfl2]
            simp only [show ((true : Bool) = true) = True by simp, if_true]
            by_cases hhas : dictHas p₁ path.real
            · rw [if_pos hhas, if_pos hhas]
              exact ⟨rfl, rfl, hsR⟩
            · rw [if_neg hhas, if_neg hhas]
              exact ⟨rfl, rfl, hsR⟩
          · have hfl2' : follow_links = false := by simpa using hfl2
            exact absurd hfl2' hfl
      · exact ⟨rfl, rfl, hR⟩
  · rw [if_neg hsym]
    simp only []
    rw [hl₁, hl₂]
    match o₁ with
    | some out => exact ⟨rfl, rfl, hsR⟩
    | none =>
      by_cases hfl2 : follow_links
      · rw [hfl2]
        simp only [show ((true : Bool) = true) = True by simp, if_true]
        by_cases hhas : dictHas p₁ path.real
        · rw [if_pos hhas, if_pos hhas]
          exact ⟨rfl, rfl, hsR⟩
        · rw [if_neg hhas, if_neg hhas]
          exact ⟨rfl, rfl, hsR⟩
      · have hfl2' : follow_links = false := by simpa using hfl2
        rw [hfl2']
        simp only [show ((false : Bool) = true) = False by simp, if_false]
        exact ⟨trivial, trivial, hsR⟩

/-- The whole recursion is insensitive to the `file_apply` state
representation. -/
theorem engine_sim {σ₁ σ₂ α β : Type} (R : σ₁ → σ₂ → Prop) (fs : FS)
    (rf : List RecursionPath → List RecursionPath)
    (fa₁ : σ₁ → RecursionPath → σ₁ × α) (fa₂ : σ₂ → RecursionPath → σ₂ × α)
    (da : ScanNode α β → β) (follow_links allow_cyclic_links include_empty : Bool)
    (hfa : ∀ s₁ s₂ p, R s₁ s₂ →
      R (fa₁ s₁ p).1 (fa₂ s₂ p).1 ∧ (fa₁ s₁ p).2 = (fa₂ s₂ p).2) :
    ∀ (fuel : Nat) (path : RecursionPath) (parents : Parents) (s₁ : σ₁) (s₂ : σ₂),
      R s₁ s₂ →
      (_scantree_recursive fs rf fa₁ da follow_links allow_cyclic_links include_empty
          fuel path parents s₁).1 =
        (_scantree_recursive fs rf fa₂ da follow_links allow_cyclic_links include_empty
          fuel path parents s₂).1 ∧
      (_scantree_recursive fs rf fa₁ da follow_links allow_cyclic_links include_empty
          fuel path parents s₁).2.1 =
        (_scantree_recursive fs rf fa₂ da follow_links allow_cyclic_links include_empty
          fuel path parents s₂).2.1 ∧
      R (_scantree_recursive fs rf fa₁ da follow_links allow_cyclic_links include_empty
          fuel path parents s₁).2.2
        (_scantree_recursive fs rf fa₂ da follow_links allow_cyclic_links include_empty
          fuel path parents s₂).2.2 := by
  intro fuel
  induction fuel with
  | zero =>
    intro path parents s₁ s₂ hR
    exact ⟨rfl, rfl, hR⟩
  | succ fuel ih =>
    intro path parents s₁ s₂ hR
    exact scantreeStep_sim R fs rf fa₁ fa₂ da
      follow_links allow_cyclic_links include_empty
      (_scantree_recursive fs rf fa₁ da follow_links allow_cyclic_links
        include_empty fuel)
      (_scantree_recursive fs rf fa₂ da follow_links allow_cyclic_links
        include_empty fuel)
      hfa (fun sub parents s₁ s₂ h => ih sub parents s₁ s₂ h)
      path parents s₁ s₂ hR

/-- `scantree` is insensitive to the `file_apply` state representation. -/
theorem scantree_sim {σ₁ σ₂ α β : Type} (R : σ₁ → σ₂ → Prop) (fs : FS)
    (rf : List RecursionPath → List RecursionPath)
    (fa₁ : σ₁ → RecursionPath → σ₁ × α) (fa₂ : σ₂ → RecursionPath → σ₂ × α)
    (da : ScanNode α β → β) (follow_links allow_cyclic_links include_empty : Bool)
    (hfa : ∀ s₁ s₂ p, R s₁ s₂ →
      R (fa₁ s₁ p).1 (fa₂ s₂ p).1 ∧ (fa₁ s₁ p).2 = (fa₂ s₂ p).2) :
    ∀ (fuel : Nat) (directory : String) (s₁ : σ₁) (s₂ : σ₂), R s₁ s₂ →
      (scantree fs rf fa₁ da follow_links allow_cyclic_links include_empty
          fuel directory s₁).1 =
        (scantree fs rf fa₂ da follow_links allow_cyclic_links include_empty
          fuel directory s₂).1 ∧
      R (scantree fs rf fa₁ da follow_links allow_cyclic_links include_empty
          fuel directory s₁).2
        (scantree fs rf fa₂ da follow_links allow_cyclic_links include_empty
          fuel directory s₂).2 := by
  intro fuel directory s₁ s₂ hR
  rw [scantree, scantree]
  rcases hv : _verify_is_directory fs directory with _ | e
  · rcases hr : RecursionPath.from_root fs directory with _ | path
    · exact ⟨rfl, hR⟩
    · obtain ⟨ho, hp, hsR⟩ := engine_sim R fs rf fa₁ fa₂ da
        follow_links allow_cyclic_links include_empty hfa
        fuel path (dictSet [] path.real path) s₁ s₂ hR
      simp only [scantreeFinish]
      rcases ho1 : (_scantree_recursive fs rf fa₁ da follow_links allow_cyclic_links
          include_empty fuel path (dictSet [] path.real path) s₁).1 with n | e | _ <;>
        rw [show (_scantree_recursive fs rf fa₂ da follow_links allow_cyclic_links
          include_empty fuel path (dictSet [] path.real path) s₂).1 = _
          from ho.symm.trans ho1] <;>
        exact ⟨rfl, hsR⟩
  · exact ⟨rfl, hR⟩

/-- C9.  For every filesystem and configuration: the reals at which the
underlying file transform is invoked in a `cache_file_apply=True` run are the
first occurrences of the reals of an uncached run — so with caching the
transform runs exactly once per distinct real path that is reached at all,
and without caching once per file entry.  Concretely, on a directory with the
regular file `t` and two symlinks to it, the uncached run invokes the
transform 3 times (N+1 with N = 2 links), the cached run once. -/
theorem claim_C9_cache_file_apply (fs : FS)
    (rf : List RecursionPath → List RecursionPath)
    (follow_links allow_cyclic_links include_empty : Bool)
    (fuel : Nat) (directory : String) :
    ((scantree fs rf (_cached_by_realpath recordReal) Tree.ofNode
        follow_links allow_cyclic_links include_empty fuel directory ([], [])).2.1 =
      dedupFirst (scantree fs rf recordReal Tree.ofNode
        follow_links allow_cyclic_links include_empty fuel directory []).2) ∧
    (∀ r, ((scantree fs rf (_cached_by_realpath recordReal) Tree.ofNode
        follow_links allow_cyclic_links include_empty fuel directory ([], [])).2.1).count r =
      if ((scantree fs rf recordReal Tree.ofNode
        follow_links allow_cyclic_links include_empty fuel directory []).2).contains r
      then 1 else 0) ∧
    (scantree fs9 id recordReal Tree.ofNode true true false 8 "/r" []).2 =
      ["/r/t", "/r/t", "/r/t"] ∧
    (scantree fs9 id (_cached_by_realpath recordReal) Tree.ofNode
        true true false 8 "/r" ([], [])).2.1 = ["/r/t"] := by
  have hinit : cacheRel [] ([], []) := ⟨rfl, fun k => rfl⟩
  have hmain := scantree_sim cacheRel fs rf recordReal
    (_cached_by_realpath recordReal) Tree.ofNode
    follow_links allow_cyclic_links include_empty
    (fun s₁ s₂ p h => cacheRel_step s₁ s₂ p h)
    fuel directory [] ([], []) hinit
  obtain ⟨_, hfinal⟩ := hmain
  refine ⟨hfinal.1, ?_, rfl, rfl⟩
  intro r
  rw [hfinal.1, count_dedupFirst]

/-! ## Claim C6: ordering

Children are enumerated in the order of Python's `sorted`, which compares the
tuple `(root, relative, real)`; within one directory all children share the
parent's `root` (for any filter that only selects from its input), so the
order is determined by `relative`. -/

/-- Equal roots turn the attrs tuple order into the `relative` order. -/
theorem rpLE_relLE (p q : RecursionPath) (hr : p.root = q.root) (h : rpLE p q) :
    relLE p q := by
  rcases (Prod.Lex.le_iff _ _).1 h with h1 | ⟨h1, h2⟩
  · rw [show p.root.data = q.root.data from congrArg String.data hr] at h1
    exact absurd h1 (lt_irrefl _)
  · rcases (Prod.Lex.le_iff _ _).1 h2 with h3 | ⟨h3, _⟩
    · exact le_of_lt h3
    · exact le_of_eq h3

/-- Every scanned child inherits the parent's `root`. -/
theorem scandirFS_root (fs : FS) (p : RecursionPath) (sub : RecursionPath)
    (h : sub ∈ p.scandirFS fs) : sub.root = p.root := by
  rw [RecursionPath.scandirFS] at h
  obtain ⟨e, _, he⟩ := List.mem_map.1 h
  rw [← he]
  rfl

/-- The enumerated children are sorted for the attrs tuple order. -/
theorem childrenOf_sorted (fs : FS) (rf : List RecursionPath → List RecursionPath)
    (p : RecursionPath) : List.Sorted rpLE (childrenOf fs rf p) :=
  List.sorted_insertionSort rpLE (rf (p.scandirFS fs))

/-- For a filter that only selects from its input, the enumerated children
are sorted by relative path. -/
theorem childrenOf_sorted_relLE (fs : FS)
    (rf : List RecursionPath → List RecursionPath)
    (hrf : ∀ l x, x ∈ rf l → x ∈ l) (p : RecursionPath) :
    List.Sorted relLE (childrenOf fs rf p) := by
  have hroot : ∀ sub ∈ childrenOf fs rf p, sub.root = p.root := by
    intro sub hsub
    have h1 : sub ∈ rf (p.scandirFS fs) :=
      (List.perm_insertionSort rpLE (rf (p.scandirFS fs))).mem_iff.1 hsub
    exact scandirFS_root fs p sub (hrf _ _ h1)
  refine (childrenOf_sorted fs rf p).imp_of_mem ?_
  intro a b ha hb hab
  exact rpLE_relLE a b ((hroot a ha).trans (hroot b hb).symm) hab

/-- The `path` of a wrapped node. -/
theorem path_ofNode {α : Type} (n : ScanNode α (Tree α)) :
    (Tree.ofNode n).path = n.pathOf := by
  cases n <;> rfl

/-- An `ok` outcome of the engine carries the input path on every variant. -/
theorem engine_ok_path {σ α β : Type} (fs : FS)
    (rf : List RecursionPath → List RecursionPath)
    (fa : σ → RecursionPath → σ × α) (da : ScanNode α β → β)
    (follow_links allow_cyclic_links include_empty : Bool) :
    ∀ (fuel : Nat) (path : RecursionPath) (parents : Parents) (s : σ)
      (n : ScanNode α β) (p' : Parents) (s' : σ),
      _scantree_recursive fs rf fa da follow_links allow_cyclic_links include_empty
          fuel path parents s = (.ok n, p', s') →
      n.pathOf = path := by
  intro fuel path parents s n p' s' h
  match fuel with
  | 0 => simp [_scantree_recursive] at h
  | fuel + 1 =>
    rw [_scantree_recursive, scantreeStep] at h
    by_cases hsym : path.is_symlink
    · rw [if_pos hsym] at h
      by_cases hfl : follow_links = false
      · rw [if_pos hfl] at h
        simp at h
        rw [← h.1]
        rfl
      · rw [if_neg hfl] at h
        rcases hget : dictGet parents path.real with _ | prev
        · rw [hget] at h
          simp at h
          rcases hloop : scanChildren
              (_scantree_recursive fs rf fa da follow_links allow_cyclic_links
                include_empty fuel)
              fa da include_empty (childrenOf fs rf path)
              (if follow_links then dictSet parents path.real path else parents)
              s [] [] with ⟨o, p2, s2, flv, dlv⟩
          rw [hloop] at h
          match o with
          | some out =>
            simp only [] at h
            have := scanChildren_some_not_ok _ _ _ _ _ _ _ _ _ _ _ _ _ _ hloop n
            exact absurd (congrArg Prod.fst h) (by simpa using this)
          | none =>
            simp only [] at h
            by_cases hfl2 : follow_links
            · rw [hfl2] at h
              simp only [show ((true : Bool) = true) = True by simp, if_true] at h
              by_cases hhas : dictHas p2 path.real
              · rw [if_pos hhas] at h
                simp at h
                rw [← h.1]
                rfl
              · rw [if_neg hhas] at h
                simp at h
            · exact absurd (by simpa using hfl2) hfl
        · rw [hget] at h
          rcases hac : allow_cyclic_links with _ | _
          · rw [hac] at h; simp at h
          · rw [hac] at h
            simp at h
            rw [← h.1]
            rfl
    · rw [if_neg hsym] at h
      simp only [] at h
      rcases hloop : scanChildren
          (_scantree_recursive fs rf fa da follow_links allow_cyclic_links
            include_empty fuel)
          fa da include_empty (childrenOf fs rf path)
          (if follow_links then dictSet parents path.real path else parents)
          s [] [] with ⟨o, p2, s2, flv, dlv⟩
      rw [hloop] at h
      match o with
      | some out =>
        simp only [] at h
        have := scanChildren_some_not_ok _ _ _ _ _ _ _ _ _ _ _ _ _ _ hloop n
        exact absurd (congrArg Prod.fst h) (by simpa using this)
      | none =>
        simp only [] at h
        by_cases hfl2 : follow_links
        · rw [hfl2] at h
          simp only [show ((true : Bool) = true) = True by simp, if_true] at h
          by_cases hhas : dictHas p2 path.real
          · rw [if_pos hhas] at h
            simp at h
            rw [← h.1]
            rfl
          · rw [if_neg hhas] at h
            simp at h
        · have hfl2' : follow_links = false := by simpa using hfl2
          rw [hfl2'] at h
          simp at h
          rw [← h.1]
          rfl

/-- The children loop appends to `files` exactly the file children, in
order (identity `file_apply`). -/
theorem scanChildren_files {β : Type}
    (recFn : RecursionPath → Parents → Unit →
      ScanOutcome (ScanNode RecursionPath β) × Parents × Unit)
    (da : ScanNode RecursionPath β → β) (include_empty : Bool) :
    ∀ (subs : List RecursionPath) (parents : Parents)
      (files : List RecursionPath) (dirs : List β) (p' : Parents) (s' : Unit) f' d',
      scanChildren recFn idFileApply da include_empty subs parents () files dirs =
        (none, p', s', f', d') →
      f' = files ++ subs.filter (fun sub => sub.is_file true) := by
  intro subs
  induction subs with
  | nil =>
    intro parents files dirs p' s' f' d' h
    simp [scanChildren] at h
    simp [h.2.1.symm]
  | cons sub rest ih =>
    intro parents files dirs p' s' f' d' h
    by_cases hd : sub.is_dir true
    · rw [scanChildren, if_pos hd] at h
      rcases hrec : recFn sub parents () with ⟨o, p1, s1⟩
      rw [hrec] at h
      match o with
      | .ok dn =>
        rcases s1
        by_cases hf : sub.is_file true
        · simp only [hf, show ((true : Bool) = true) = True by simp, if_true] at h
          rw [ih p1 _ _ p' s' f' d' h]
          simp [List.filter_cons, hf, idFileApply]
        · have hf' : sub.is_file true = false := by simpa using hf
          simp only [hf', show ((false : Bool) = true) = False by simp, if_false] at h
          rw [ih p1 _ _ p' s' f' d' h]
          simp [List.filter_cons, hf', idFileApply]
      | .err e => simp at h
      | .fuelOut => simp at h
    · rw [scanChildren, if_neg hd] at h
      by_cases hf : sub.is_file true
      · simp only [hf, show ((true : Bool) = true) = True by simp, if_true] at h
        rw [ih parents _ _ p' s' f' d' h]
        simp [List.filter_cons, hf, idFileApply]
      · have hf' : sub.is_file true = false := by simpa using hf
        simp only [hf', show ((false : Bool) = true) = False by simp, if_false] at h
        rw [ih parents _ _ p' s' f' d' h]
        simp [List.filter_cons, hf', idFileApply]

theorem childrenOrderedList_append (l : List (Tree RecursionPath))
    (t : Tree RecursionPath) :
    Tree.childrenOrderedList (l ++ [t]) =
      (Tree.childrenOrderedList l && t.childrenOrdered) := by
  induction l with
  | nil => simp [Tree.childrenOrderedList]
  | cons h rest ih => simp [Tree.childrenOrderedList, ih, Bool.and_assoc]

/-- The children loop appends to `dirs` nodes whose paths form a sublist of
the directory children, each node internally ordered (hypotheses on the
recursive call). -/
theorem scanChildren_dirs
    (recFn : RecursionPath → Parents → Unit →
      ScanOutcome (ScanNode RecursionPath (Tree RecursionPath)) × Parents × Unit)
    (include_empty : Bool)
    (hpath : ∀ sub p s n p' s', recFn sub p s = (.ok n, p', s') →
      ScanNode.pathOf n = sub)
    (hord : ∀ sub p s n p' s', recFn sub p s = (.ok n, p', s') →
      Tree.childrenOrdered (Tree.ofNode n) = true) :
    ∀ (subs : List RecursionPath) (parents : Parents)
      (files : List RecursionPath) (dirs : List (Tree RecursionPath))
      (p' : Parents) (s' : Unit) f' d',
      scanChildren recFn idFileApply Tree.ofNode include_empty subs parents ()
          files dirs = (none, p', s', f', d') →
      ∃ rest, d' = dirs ++ rest ∧
        (rest.map Tree.path).Sublist (subs.filter (fun sub => sub.is_dir true)) ∧
        Tree.childrenOrderedList rest = true := by
  intro subs
  induction subs with
  | nil =>
    intro parents files dirs p' s' f' d' h
    simp [scanChildren] at h
    exact ⟨[], by simp [h.2.2.symm], by simp, rfl⟩
  | cons sub rest ih =>
    intro parents files dirs p' s' f' d' h
    by_cases hd : sub.is_dir true
    · rw [scanChildren, if_pos hd] at h
      rcases hrec : recFn sub parents () with ⟨o, p1, s1⟩
      rw [hrec] at h
      match o with
      | .ok dn =>
        rcases s1
        simp only [] at h
        have hpdn : (Tree.ofNode dn).path = sub := by
          rw [path_ofNode]
          exact hpath sub parents () dn p1 () hrec
        have hodn : Tree.childrenOrdered (Tree.ofNode dn) = true :=
          hord sub parents () dn p1 () hrec
        by_cases hie : (include_empty || !is_empty_dir_node dn) = true
        · rw [show (if include_empty || !is_empty_dir_node dn
              then dirs ++ [Tree.ofNode dn] else dirs) = dirs ++ [Tree.ofNode dn]
              from if_pos hie] at h
          obtain ⟨rest1, hrest1, hsub1, hord1⟩ := ih p1 _ _ p' s' f' d' h
          refine ⟨Tree.ofNode dn :: rest1, ?_, ?_, ?_⟩
          · rw [hrest1]; simp
          · simp only [List.map_cons, hpdn, List.filter_cons, hd]
            exact List.Sublist.cons₂ sub hsub1
          · simp [Tree.childrenOrderedList, hodn, hord1]
        · rw [show (if include_empty || !is_empty_dir_node dn
              then dirs ++ [Tree.ofNode dn] else dirs) = dirs
              from if_neg hie] at h
          obtain ⟨rest1, hrest1, hsub1, hord1⟩ := ih p1 _ _ p' s' f' d' h
          refine ⟨rest1, hrest1, ?_, hord1⟩
          simp only [List.filter_cons, hd]
          exact List.Sublist.cons sub hsub1
      | .err e => simp at h
      | .fuelOut => simp at h
    · rw [scanChildren, if_neg hd] at h
      obtain ⟨rest1, hrest1, hsub1, hord1⟩ := ih parents _ _ p' s' f' d' h
      refine ⟨rest1, hrest1, ?_, hord1⟩
      simpa [List.filter_cons, hd] using hsub1

/-- The engine with identity transforms produces trees ordered by relative
path in every `DirNode`. -/
theorem engine_ordered_aux (fs : FS)
    (rf : List RecursionPath → List RecursionPath)
    (hrf : ∀ l x, x ∈ rf l → x ∈ l)
    (follow_links allow_cyclic_links include_empty : Bool) :
    ∀ (fuel : Nat) (path : RecursionPath) (parents : Parents)
      (n : ScanNode RecursionPath (Tree RecursionPath)) (p' : Parents) (s' : Unit),
      _scantree_recursive fs rf idFileApply Tree.ofNode follow_links
          allow_cyclic_links include_empty fuel path parents () = (.ok n, p', s') →
      Tree.childrenOrdered (Tree.ofNode n) = true := by
  intro fuel
  induction fuel with
  | zero =>
    intro path parents n p' s' h
    simp [_scantree_recursive] at h
  | succ fuel ih =>
    intro path parents n p' s' h
    match n with
    | .linkedDir _ => rfl
    | .cyclicLinkedDir _ _ => rfl
    | .dirNode q fls drs =>
      obtain ⟨hq, fuel0, p2, hfuel, hloop⟩ :=
        engine_ok_dirNode fs rf idFileApply Tree.ofNode follow_links
          allow_cyclic_links include_empty (fuel + 1) path parents () q fls drs p' s' h
      have hfuel0 : fuel0 = fuel := by omega
      rw [hfuel0] at hloop
      have hsorted : List.Sorted relLE (childrenOf fs rf path) :=
        childrenOf_sorted_relLE fs rf hrf path
      have hfls : fls = [] ++ (childrenOf fs rf path).filter
          (fun sub => sub.is_file true) :=
        scanChildren_files _ Tree.ofNode include_empty _ _ _ _ p2 s' fls drs hloop
      obtain ⟨rest, hrest, hsub, hordl⟩ :=
        scanChildren_dirs _ include_empty
          (fun sub p s n p' s' hh =>
            engine_ok_path fs rf idFileApply Tree.ofNode follow_links
              allow_cyclic_links include_empty fuel sub p s n p' s' hh)
          (fun sub p s n p' s' hh => ih sub p n p' s' hh)
          (childrenOf fs rf path) _ [] [] p2 s' fls drs hloop
      have hfls_sorted : List.Sorted relLE fls := by
        rw [hfls]
        simp only [List.nil_append]
        exact hsorted.sublist (List.filter_sublist _)
      have hdrs : drs = rest := by simpa using hrest
      have hdrs_sorted : List.Sorted relLE (drs.map Tree.path) := by
        rw [hdrs]
        exact hsorted.sublist
          (hsub.trans (List.filter_sublist (childrenOf fs rf path)))
      show Tree.childrenOrdered (Tree.dirNode q fls drs) = true
      rw [Tree.childrenOrdered]
      rw [decide_eq_true hfls_sorted, decide_eq_true hdrs_sorted]
      rw [hdrs, hordl]
      rfl

/-- C6.  For every traversal with the default (identity) transforms and any
recursion filter that only selects from its input: in every `DirNode` of the
result the `files` sequence and the paths of the `directories` sequence are
sorted by relative path, and `leafpaths()`/`filepaths()` of the result are
sorted by relative path. -/
theorem claim_C6_sorted_order (fs : FS)
    (rf : List RecursionPath → List RecursionPath)
    (hrf : ∀ l x, x ∈ rf l → x ∈ l)
    (follow_links allow_cyclic_links include_empty : Bool) (fuel : Nat)
    (path : RecursionPath) (parents : Parents)
    (n : ScanNode RecursionPath (Tree RecursionPath)) (p' : Parents) (s' : Unit)
    (h : _scantree_recursive fs rf idFileApply Tree.ofNode follow_links
        allow_cyclic_links include_empty fuel path parents () = (.ok n, p', s')) :
    Tree.childrenOrdered (Tree.ofNode n) = true ∧
    List.Sorted relLE (Tree.leafpaths (Tree.ofNode n)) ∧
    List.Sorted relLE (Tree.filepaths (Tree.ofNode n)) := by
  refine ⟨engine_ordered_aux fs rf hrf follow_links allow_cyclic_links
    include_empty fuel path parents n p' s' h, ?_, ?_⟩
  · exact List.sorted_insertionSort relLE _
  · exact List.sorted_insertionSort relLE _

/-- Witness for C6 on the basic filesystem `fs1`. -/
theorem claim_C6_sorted_order_witness :
    Tree.childrenOrdered (Tree.ofNode
      ((.dirNode rRoot [rF1] [.dirNode rD1 [rF2] []]) :
        ScanNode RecursionPath (Tree RecursionPath))) = true ∧
    List.Sorted relLE (Tree.leafpaths (Tree.ofNode
      ((.dirNode rRoot [rF1] [.dirNode rD1 [rF2] []]) :
        ScanNode RecursionPath (Tree RecursionPath)))) ∧
    List.Sorted relLE (Tree.filepaths (Tree.ofNode
      ((.dirNode rRoot [rF1] [.dirNode rD1 [rF2] []]) :
        ScanNode RecursionPath (Tree RecursionPath)))) :=
  claim_C6_sorted_order fs1 id (fun l x hx => hx) true true false 9 rRoot
    (dictSet [] "/r" rRoot)
    (.dirNode rRoot [rF1] [.dirNode rD1 [rF2] []])
    (_scantree_recursive fs1 id idFileApply Tree.ofNode true true false 9 rRoot
      (dictSet [] "/r" rRoot) ()).2.1 () rfl

end Scantree

